import Mathlib

/-!
Verification of the combat core of this repository: the Combat Formula
Engine (`src/utils/combat/UniversalCombatFormula.ts`) and the Combat
Session Synchronizer (`CombatSynchronizer`, the unnamed source file).
The unnamed file contains two revisions of the `CombatSynchronizer`
class; we embed the later revision (the one with the `combatLocks`
start-lock set and the `startedAt` field), which is the one the
specification describes.

Numbers are modelled exactly: JavaScript numerics become `ℚ` wherever
the source only adds, multiplies, divides, compares, rounds and clamps;
the single `Math.pow(x, 1.5)` call is modelled with real `rpow`, so the
difficulty multiplier and the quantities downstream of it live in `ℝ`.

The stat/weapon resolution helpers `mapCoreStats10` and
`normalizeWeaponFromItem` are imported by the formula file but are not
part of the excerpt; squad members and enemies are therefore modelled as
records already carrying the resolved core stats and the resolved
(normalized) weapon, and the theorems quantify over all such resolved
values.
-/

/-! ### Association lists and insertion-ordered sets

JavaScript `Map` and `Set` are modelled as association lists and lists
with insertion-order append semantics: `set` replaces in place or
appends, `add` appends when absent, `delete` filters. -/

def alGet {α : Type} : List (String × α) → String → Option α
  | [], _ => none
  | (k1, v1) :: t, k => if k1 = k then some v1 else alGet t k

def alSet {α : Type} : List (String × α) → String → α → List (String × α)
  | [], k, v => [(k, v)]
  | (k1, v1) :: t, k, v =>
    if k1 = k then (k, v) :: t else (k1, v1) :: alSet t k v

def alDel {α : Type} : List (String × α) → String → List (String × α)
  | [], _ => []
  | (k1, v1) :: t, k => if k1 = k then alDel t k else (k1, v1) :: alDel t k

def sInsert (l : List String) (k : String) : List String :=
  if k ∈ l then l else l ++ [k]

def sDel (l : List String) (k : String) : List String :=
  l.filter (fun m => m ≠ k)

/-! ### Formula Engine: data model

`CoreStats` is the part of `mapCoreStats10`'s output that
`UniversalCombatFormula.ts` reads; `NormalizedWeapon` is the output of
`normalizeWeaponFromItem` (category `gun` or `melee`). A squad member is
modelled by its resolved stats and resolved optional weapon; an enemy by
its optional `accuracy` / `damage` / `health` fields and its `weapon`
field, which in the source is a string id (resolved through
`normalizeWeaponFromItem`, possibly to nothing), an inline object with
optional `fireRate` / `damage`, or absent. -/

structure CoreStats where
  combatLevel : ℚ
  combatDamageMultiplier : ℚ
  intelligence : ℚ
  survival : ℚ
deriving DecidableEq

inductive WeaponCategory where
  | gun : WeaponCategory
  | melee : WeaponCategory
deriving DecidableEq

structure NormalizedWeapon where
  category : WeaponCategory
  damage : ℚ
  rpm : ℚ
  swingSpeed : ℚ
  accuracy : ℚ
  reliability : ℚ
deriving DecidableEq

structure SquadMember where
  core : CoreStats
  weapon : Option NormalizedWeapon
deriving DecidableEq

inductive EnemyWeaponField where
  | named : Option NormalizedWeapon → EnemyWeaponField
  | inlineStats : Option ℚ → Option ℚ → EnemyWeaponField
  | absent : EnemyWeaponField
deriving DecidableEq

structure Enemy where
  accuracy : Option ℚ
  damage : Option ℚ
  health : Option ℚ
  weapon : EnemyWeaponField
deriving DecidableEq

/-- `computeMemberDps` from `UniversalCombatFormula.ts` (lines 17–38),
with `mapCoreStats10` and `normalizeWeaponFromItem` modelled as the
already-resolved record fields. -/
def computeMemberDps (m : SquadMember) : ℚ :=
  match m.weapon with
  | none => (0.2 + m.core.combatLevel * 0.25) * m.core.combatDamageMultiplier
  | some w =>
    match w.category with
    | .gun =>
      w.damage * (w.rpm / 60) * (w.accuracy / 100) * (w.reliability / 100) *
        m.core.combatDamageMultiplier
    | .melee =>
      w.damage * (w.swingSpeed / 60) * (w.accuracy / 100) * (w.reliability / 100) *
        m.core.combatDamageMultiplier

/-- `computeEnemyDps` from `UniversalCombatFormula.ts` (lines 40–68). -/
def computeEnemyDps (e : Enemy) : ℚ :=
  let acc0 : ℚ := (e.accuracy.getD 60) / 100
  let dmg0 : ℚ := e.damage.getD 10
  let rdar : ℚ × ℚ × ℚ × ℚ :=
    match e.weapon with
    | .named (some w) =>
      match w.category with
      | .gun => (w.rpm, w.damage, w.accuracy / 100, w.reliability / 100)
      | .melee => (w.swingSpeed, w.damage, w.accuracy / 100, w.reliability / 100)
    | .named none => (30, dmg0, acc0, 0.75)
    | .inlineStats fireRate damage => ((fireRate.getD 1) * 20, damage.getD dmg0, acc0, 0.75)
    | .absent => (30, dmg0, acc0, 0.75)
  max 0.5 (rdar.2.1 * ((rdar.1 / 60) * rdar.2.2.1 * rdar.2.2.2))

/-- Squad DPS: sum of member DPS floored at 0.5 (line 78). -/
def squadDpsOf (squad : List SquadMember) : ℚ :=
  max 0.5 (squad.foldl (fun s m => s + computeMemberDps m) 0)

/-- Enemy DPS: sum of enemy DPS floored at 0.5 (line 81). -/
def enemyDpsOf (enemies : List Enemy) : ℚ :=
  max 0.5 (enemies.foldl (fun s e => s + computeEnemyDps e) 0)

/-- Total enemy health, each enemy's health (default 40) scaled by 30 (line 82). -/
def totalEnemyHealthOf (enemies : List Enemy) : ℚ :=
  enemies.foldl (fun s e => s + (e.health.getD 40) * 30) 0

/-- `totalEnemyHealth / squadDps` (line 85). -/
def baseCombatSecondsOf (squad : List SquadMember) (enemies : List Enemy) : ℚ :=
  totalEnemyHealthOf enemies / squadDpsOf squad

/-- JavaScript `x || d` on numbers: `d` when `x` is zero. -/
def jsOr (x d : ℚ) : ℚ := if x = 0 then d else x

/-- `Math.pow(Math.max(1, difficulty || 1), 1.5)` (line 88). -/
noncomputable def difficultyMultiplierOf (difficulty : ℚ) : ℝ :=
  ((max 1 (jsOr difficulty 1) : ℚ) : ℝ) ^ (1.5 : ℝ)

/-- `squadDps / Math.max(enemyDps, 0.5)` (line 91). -/
def powerRatioOf (squad : List SquadMember) (enemies : List Enemy) : ℚ :=
  squadDpsOf squad / max (enemyDpsOf enemies) 0.5

/-- The power-ratio branch factor (lines 93–95). -/
def powerFactorOf (squad : List SquadMember) (enemies : List Enemy) : ℚ :=
  if powerRatioOf squad enemies > 2 then 0.6
  else if powerRatioOf squad enemies < 0.5 then 2.5
  else 1.2

/-- `adjustedCombat` after the difficulty and power-ratio scalings (lines 92–95). -/
noncomputable def adjustedCombatOf (squad : List SquadMember) (enemies : List Enemy)
    (difficulty : ℚ) : ℝ :=
  ((baseCombatSecondsOf squad enemies : ℚ) : ℝ) * difficultyMultiplierOf difficulty *
    ((powerFactorOf squad enemies : ℚ) : ℝ)

/-- Average squad intelligence (lines 98–105): sum over members with the
`{intelligence: 5, survival: 5}` default for an empty squad, divided by
`Math.max(1, length)`. -/
def avgIntOf (squad : List SquadMember) : ℚ :=
  (if squad.isEmpty then 5 else squad.foldl (fun s m => s + m.core.intelligence) 0) /
    max 1 (squad.length : ℚ)

/-- Average squad survival (lines 98–106). -/
def avgSurvOf (squad : List SquadMember) : ℚ :=
  (if squad.isEmpty then 5 else squad.foldl (fun s m => s + m.core.survival) 0) /
    max 1 (squad.length : ℚ)

/-- `30 + difficulty * 10` base travel minutes (line 108). -/
def baseTravelOf (difficulty : ℚ) : ℚ := 30 + difficulty * 10

/-- Char-list substring occurrence, modelling JavaScript `String.includes`. -/
def leadsWith : List Char → List Char → Bool
  | [], _ => true
  | _ :: _, [] => false
  | a :: p, b :: s => a == b && leadsWith p s

def hasSub (p : List Char) : List Char → Bool
  | [] => leadsWith p []
  | b :: s => leadsWith p (b :: s) || hasSub p s

/-- `toLowerCase` modelled characterwise. -/
def lowerChars (s : String) : List Char := s.data.map Char.toLower

/-- JavaScript `s.includes(pat)` on a lower-cased character list. -/
def jsIncludes (s : List Char) (pat : String) : Bool := hasSub pat.data s

/-- Terrain factor from the lower-cased location string (lines 109–113). -/
def terrainFactorOf (location : String) : ℚ :=
  let loc := lowerChars location
  if jsIncludes loc "junction" then 1.6
  else if jsIncludes loc "complex" then 1.5
  else if jsIncludes loc "valley" then 1.4
  else 1.3

/-- Sub-terrain factor from the lower-cased optional sub-terrain string
(lines 114–122). -/
def subFactorOf (subTerrain : Option String) : ℚ :=
  let st := lowerChars (subTerrain.getD "")
  if jsIncludes st "alleys" then 1.2
  else if jsIncludes st "tunnel" then 1.4
  else if jsIncludes st "canyon" then 1.3
  else if jsIncludes st "dunes" then 1.25
  else if jsIncludes st "salt" then 0.9
  else if jsIncludes st "marsh" then 1.25
  else if jsIncludes st "ruins" then 1.15
  else 1.0

/-- `1 - (avgInt/10)*0.2 - (avgSurv/10)*0.2` (line 123). -/
def reductionOf (squad : List SquadMember) : ℚ :=
  1 - (avgIntOf squad / 10) * 0.2 - (avgSurvOf squad / 10) * 0.2

/-- JavaScript `Math.round`: half-up rounding, `⌊x + 1/2⌋`. -/
def jsRound (q : ℚ) : ℤ := ⌊q + 1 / 2⌋

/-- `clamp` from `UniversalCombatFormula.ts` line 15:
`Math.max(min, Math.min(max, v))`. -/
def clamp (v lo hi : ℤ) : ℤ := max lo (min hi v)

/-- `travelMinutes` (line 124): rounded product of base travel, terrain
factor, sub-terrain factor and the reduction floored at 0.6, clamped to
`[9, 600]`. -/
def travelMinutesOf (squad : List SquadMember) (difficulty : ℚ)
    (location : String) (subTerrain : Option String) : ℤ :=
  clamp
    (jsRound (baseTravelOf difficulty * terrainFactorOf location *
      subFactorOf subTerrain * max 0.6 (reductionOf squad))) 9 600

structure UniversalCombatResult where
  estimatedDuration : ℝ
  powerRatio : ℚ
  squadDps : ℚ
  enemyDps : ℚ
  totalEnemyHealth : ℚ
  difficultyModifier : ℝ
  travelMinutes : ℤ

/-- `calculateUniversalCombatDuration` from `UniversalCombatFormula.ts`
(lines 70–137), assembled from the component definitions above exactly
as the source's sequence of local bindings. -/
noncomputable def calculateUniversalCombatDuration (squad : List SquadMember)
    (enemies : List Enemy) (difficulty : ℚ) (location : String)
    (subTerrain : Option String) : UniversalCombatResult :=
  { estimatedDuration :=
      adjustedCombatOf squad enemies difficulty +
        ((travelMinutesOf squad difficulty location subTerrain : ℤ) : ℝ) * 60
    powerRatio := powerRatioOf squad enemies
    squadDps := squadDpsOf squad
    enemyDps := enemyDpsOf enemies
    totalEnemyHealth := totalEnemyHealthOf enemies
    difficultyModifier := difficultyMultiplierOf difficulty
    travelMinutes := travelMinutesOf squad difficulty location subTerrain }

/-! ### Combat Session Synchronizer: data model

The `CombatSynchronizer` class state (unnamed source file, lines 12–25):
`activeCombats`, `completedCombats`, `finalResults`, `combatLocks` and
`missionCompletionCallbacks`. The external `EnhancedRealCombatAI`
collaborator is modelled by the snapshot it reports: `RealCombatState`
carries at least `victory`, `startTime` and `combatants`, per the
collaborator contract. A session's `combatAI` reference is modelled by
the collaborator's current internal `combatState` (`aiState` below),
which is exactly the part the synchronizer reads through the
`combatAI['combatState']` back-channel. The opaque `mission` payload is
never read by the synchronizer and is omitted. Completion callbacks are
opaque to the synchronizer; they are modelled by identifiers, and each
invocation `callback(victory, actualDuration)` is recorded in an
invocation log that a step returns alongside the new state. -/

structure Combatant where
  id : String
  health : ℚ
deriving DecidableEq

structure RealCombatState where
  victory : Option Bool
  startTime : ℚ
  combatants : List Combatant
deriving DecidableEq

structure SessionData where
  isComplete : Bool
  actualDuration : ℚ
  startedAt : ℚ
  aiState : Option RealCombatState
deriving DecidableEq

structure FinalResult where
  victory : Bool
  actualDuration : ℚ
  finalHealths : List (String × ℚ)
deriving DecidableEq

structure SyncState where
  activeCombats : List (String × SessionData)
  completedCombats : List String
  finalResults : List (String × FinalResult)
  combatLocks : List String
  missionCompletionCallbacks : List (String × List ℕ)
deriving DecidableEq

/-- One recorded listener invocation: callback id, victory, actualDuration. -/
abbrev Invocation : Type := ℕ × Bool × ℚ

def initState : SyncState :=
  { activeCombats := []
    completedCombats := []
    finalResults := []
    combatLocks := []
    missionCompletionCallbacks := [] }

/-- `state.combatants.forEach(c => finalHealths[c.id] = c.health)`
(lines 83–86): later entries for the same id overwrite earlier ones. -/
def healthsOf (cs : List Combatant) : List (String × ℚ) :=
  cs.foldl (fun m c => alSet m c.id c.health) []

/-- The `onUpdate` handler subscribed in `startSynchronizedCombat`
(lines 70–111): on a snapshot whose `victory` is non-null and while a
session object is registered, archive the final result, notify the
registered listeners in order, then delete the session, clear the
listener list, add the mission to `completedCombats` and release the
lock. Otherwise do nothing. -/
def handleUpdate (missionId : String) (st : RealCombatState) (now : ℚ)
    (s : SyncState) : SyncState × List Invocation :=
  match alGet s.activeCombats missionId, st.victory with
  | some _, some v =>
    let actualDuration := (now - st.startTime) / 1000
    let finalHealths := healthsOf st.combatants
    let callbacks := (alGet s.missionCompletionCallbacks missionId).getD []
    ({ s with
        finalResults := alSet s.finalResults missionId
          ⟨v, actualDuration, finalHealths⟩
        activeCombats := alDel s.activeCombats missionId
        missionCompletionCallbacks := alDel s.missionCompletionCallbacks missionId
        completedCombats := sInsert s.completedCombats missionId
        combatLocks := sDel s.combatLocks missionId },
      callbacks.map (fun c => (c, v, actualDuration)))
  | _, _ => (s, [])

/-- The duplicate-start guards of `startSynchronizedCombat`
(lines 46–61): already completed, or locked, or live and not complete. -/
def startGuard (missionId : String) (s : SyncState) : Bool :=
  decide (missionId ∈ s.completedCombats) ||
  decide (missionId ∈ s.combatLocks) ||
  (match alGet s.activeCombats missionId with
   | some cd => !cd.isComplete
   | none => false)

/-- `startSynchronizedCombat` (lines 37–126) when the collaborator's
`startCombat` returns without synchronously delivering an update: after
the guards, insert the lock and register a fresh session
(`isComplete := false`, `actualDuration := 0`, `startedAt := now`).
The lock is not removed on this path. -/
def startStep (missionId : String) (now : ℚ) (s : SyncState) : SyncState :=
  if startGuard missionId s then s
  else
    { s with
        combatLocks := sInsert s.combatLocks missionId
        activeCombats := alSet s.activeCombats missionId
          ⟨false, 0, now, none⟩ }

/-- `startSynchronizedCombat` when the collaborator delivers a snapshot
synchronously from inside `startCombat` (line 114): the subscribed
handler runs between the lock insertion and the registration of the
session object (line 117). -/
def startSyncUpdStep (missionId : String) (st : RealCombatState) (now : ℚ)
    (s : SyncState) : SyncState × List Invocation :=
  if startGuard missionId s then (s, [])
  else
    let s1 := { s with combatLocks := sInsert s.combatLocks missionId }
    let r := handleUpdate missionId st now s1
    ({ r.1 with
        activeCombats := alSet r.1.activeCombats missionId
          ⟨false, 0, now, none⟩ },
      r.2)

/-- `isCombatActive` (lines 131–137). -/
def isCombatActive (s : SyncState) (missionId : String) : Bool :=
  (match alGet s.activeCombats missionId with
   | some cd => !cd.isComplete
   | none => false) ||
  decide (missionId ∈ s.combatLocks)

/-- `onCombatComplete` (lines 142–149): append the callback to the
mission's list. -/
def registerStep (missionId : String) (cb : ℕ) (s : SyncState) : SyncState :=
  { s with
      missionCompletionCallbacks :=
        alSet s.missionCompletionCallbacks missionId
          (((alGet s.missionCompletionCallbacks missionId).getD []) ++ [cb]) }

/-- `getActualCombatDuration` (lines 154–157). -/
def getActualCombatDuration (s : SyncState) (missionId : String) : Option ℚ :=
  match alGet s.activeCombats missionId with
  | some cd => if cd.isComplete then some cd.actualDuration else none
  | none => none

/-- `getCombatResults` (lines 205–209). -/
def getCombatResults (s : SyncState) (missionId : String) : Option FinalResult :=
  alGet s.finalResults missionId

/-- `getCombatState` (lines 197–200). -/
def getCombatState (s : SyncState) (missionId : String) : Option RealCombatState :=
  (alGet s.activeCombats missionId).bind (fun cd => cd.aiState)

/-- `forceCombatEnd` (lines 162–192). The duration expression
`(Date.now() - combatData.combatAI['combatState']?.startTime || Date.now()) / 1000`
evaluates `now - startTime` first; when the combat state is absent (the
subtraction is `NaN`) or the difference is `0`, the `||` falls back to
`Date.now()`. No listener is invoked on this path. -/
def forceStep (missionId : String) (now : ℚ) (s : SyncState) :
    SyncState × List Invocation :=
  match alGet s.activeCombats missionId with
  | some cd =>
    if cd.isComplete then (s, [])
    else
      let actualDuration :=
        (match cd.aiState with
         | some st => if now - st.startTime = 0 then now else now - st.startTime
         | none => now) / 1000
      let finalHealths :=
        match cd.aiState with
        | some st => healthsOf st.combatants
        | none => []
      ({ s with
          finalResults := alSet s.finalResults missionId
            ⟨false, actualDuration, finalHealths⟩
          activeCombats := alDel s.activeCombats missionId
          missionCompletionCallbacks := alDel s.missionCompletionCallbacks missionId
          completedCombats := sInsert s.completedCombats missionId
          combatLocks := sDel s.combatLocks missionId },
        [])
  | none => (s, [])

/-- The collaborator mutating its own internal state between updates
(external to the synchronizer): the session's `combatAI['combatState']`
snapshot changes, nothing else does. -/
def aiTickStep (missionId : String) (st : RealCombatState) (s : SyncState) :
    SyncState :=
  match alGet s.activeCombats missionId with
  | some cd =>
    { s with
        activeCombats := alSet s.activeCombats missionId
          { cd with aiState := some st } }
  | none => s

/-- The events that drive the synchronizer: the public operations plus
the two collaborator behaviours (asynchronous update delivery, and
internal state mutation). `startSyncUpd` is a `startSession` call whose
collaborator delivers a snapshot synchronously from `startCombat`. -/
inductive SyncEvent where
  | start : String → ℚ → SyncEvent
  | startSyncUpd : String → RealCombatState → ℚ → SyncEvent
  | update : String → RealCombatState → ℚ → SyncEvent
  | register : String → ℕ → SyncEvent
  | forceEnd : String → ℚ → SyncEvent
  | aiTick : String → RealCombatState → SyncEvent
deriving DecidableEq

def step (e : SyncEvent) (s : SyncState) : SyncState × List Invocation :=
  match e with
  | .start mid now => (startStep mid now s, [])
  | .startSyncUpd mid st now => startSyncUpdStep mid st now s
  | .update mid st now => handleUpdate mid st now s
  | .register mid cb => (registerStep mid cb s, [])
  | .forceEnd mid now => forceStep mid now s
  | .aiTick mid st => (aiTickStep mid st s, [])

def run (s : SyncState) (evs : List SyncEvent) : SyncState :=
  evs.foldl (fun t e => (step e t).1) s

/-- A synchronizer state reachable from the freshly constructed
singleton by some sequence of events. -/
def Reachable (s : SyncState) : Prop :=
  ∃ evs : List SyncEvent, run initState evs = s

/-- The invariants the synchronizer maintains: registry keys are unique,
every registered session is non-complete, every locked mission has a
registered session, and every completed mission has neither a session
nor a lock. -/
def SyncInv (s : SyncState) : Prop :=
  ((s.activeCombats.map Prod.fst).Nodup) ∧
  (∀ p ∈ s.activeCombats, p.2.isComplete = false) ∧
  (∀ mid ∈ s.combatLocks, ∃ cd, alGet s.activeCombats mid = some cd) ∧
  (∀ mid ∈ s.completedCombats,
    alGet s.activeCombats mid = none ∧ mid ∉ s.combatLocks)

/-- The per-mission registered-listener list:
`missionCompletionCallbacks.get(missionId) || []`. -/
def regList (s : SyncState) (mid : String) : List ℕ :=
  (alGet s.missionCompletionCallbacks mid).getD []

/-- A sequence of `onCombatComplete(missionId, cb)` calls. -/
def registerEvents (mid : String) (cbs : List ℕ) : List SyncEvent :=
  cbs.map (SyncEvent.register mid)

/-- Number of live (non-complete) sessions registered for a mission ID. -/
def liveSessionCount (s : SyncState) (mid : String) : ℕ :=
  (s.activeCombats.filter (fun p => p.1 == mid && !p.2.isComplete)).length

/-- A mission that has fully completed: archived in `completedCombats`,
no registered session, no lock. -/
def CompletedQ (mid : String) (s : SyncState) : Prop :=
  mid ∈ s.completedCombats ∧ alGet s.activeCombats mid = none ∧
    mid ∉ s.combatLocks

/-- Events that can complete or remove mission `mid`'s live session: a
terminal update for `mid`, or a forced end for `mid`. -/
def killsSession (mid : String) : SyncEvent → Prop
  | .update m st _ => m = mid ∧ st.victory ≠ none
  | .forceEnd m _ => m = mid
  | _ => False

theorem alGet_alSet_self {α : Type} (l : List (String × α)) (k : String) (v : α) :
    alGet (alSet l k v) k = some v := by
  induction l with
  | nil => simp [alGet, alSet]
  | cons p t ih =>
    obtain ⟨k1, v1⟩ := p
    by_cases h : k1 = k
    · simp [alSet, h, alGet]
    · simp [alSet, h, alGet, ih]

theorem alGet_alSet_ne {α : Type} (l : List (String × α)) (k m : String) (v : α)
    (h : m ≠ k) : alGet (alSet l k v) m = alGet l m := by
  have hk : ¬k = m := fun hh => h hh.symm
  induction l with
  | nil => simp [alGet, alSet, hk]
  | cons p t ih =>
    obtain ⟨k1, v1⟩ := p
    by_cases h1 : k1 = k
    · subst h1
      simp [alSet, alGet, hk]
    · by_cases h2 : k1 = m
      · simp [alSet, alGet, h1, h2, hk, h]
      · simp [alSet, alGet, h1, h2, ih]

theorem alGet_alDel_self {α : Type} (l : List (String × α)) (k : String) :
    alGet (alDel l k) k = none := by
  induction l with
  | nil => rfl
  | cons p t ih =>
    obtain ⟨k1, v1⟩ := p
    by_cases h : k1 = k
    · simpa [alDel, h] using ih
    · simp [alDel, alGet, h, ih]

theorem alGet_alDel_ne {α : Type} (l : List (String × α)) (k m : String)
    (h : m ≠ k) : alGet (alDel l k) m = alGet l m := by
  have hk : ¬k = m := fun hh => h hh.symm
  induction l with
  | nil => rfl
  | cons p t ih =>
    obtain ⟨k1, v1⟩ := p
    by_cases h1 : k1 = k
    · subst h1
      simp [alDel, alGet, hk, ih]
    · by_cases h2 : k1 = m
      · simp [alDel, alGet, h1, h2, hk, h]
      · simp [alDel, alGet, h1, h2, ih]

theorem mem_sInsert {l : List String} {k m : String} :
    m ∈ sInsert l k ↔ m ∈ l ∨ m = k := by
  unfold sInsert
  by_cases h : k ∈ l
  · simp only [h, if_true]
    constructor
    · exact Or.inl
    · rintro (hm | rfl)
      · exact hm
      · exact h
  · simp [h]

theorem mem_sDel {l : List String} {k m : String} :
    m ∈ sDel l k ↔ m ∈ l ∧ m ≠ k := by
  simp [sDel]

theorem alGet_mem {α : Type} {l : List (String × α)} {k : String} {v : α} :
    alGet l k = some v → (k, v) ∈ l := by
  induction l with
  | nil => intro h; simp [alGet] at h
  | cons p t ih =>
    obtain ⟨k1, v1⟩ := p
    intro h
    by_cases h1 : k1 = k
    · subst h1
      have hv : v1 = v := by simpa [alGet] using h
      subst hv
      exact List.mem_cons_self _ _
    · simp only [alGet, if_neg h1] at h
      exact List.mem_cons_of_mem _ (ih h)

theorem mem_alSet {α : Type} {l : List (String × α)} {k : String} {v : α}
    {p : String × α} : p ∈ alSet l k v → p = (k, v) ∨ p ∈ l := by
  induction l with
  | nil => intro h; simpa [alSet] using h
  | cons q t ih =>
    obtain ⟨k1, v1⟩ := q
    intro h
    by_cases h1 : k1 = k
    · simp only [alSet, if_pos h1, List.mem_cons] at h
      rcases h with h | h
      · exact Or.inl h
      · exact Or.inr (List.mem_cons_of_mem _ h)
    · simp only [alSet, if_neg h1, List.mem_cons] at h
      rcases h with h | h
      · exact Or.inr (by simp [h])
      · rcases ih h with h | h
        · exact Or.inl h
        · exact Or.inr (List.mem_cons_of_mem _ h)

theorem mem_alDel {α : Type} {l : List (String × α)} {k : String}
    {p : String × α} : p ∈ alDel l k → p ∈ l := by
  induction l with
  | nil => intro h; simp [alDel] at h
  | cons q t ih =>
    obtain ⟨k1, v1⟩ := q
    intro h
    by_cases h1 : k1 = k
    · simp only [alDel, if_pos h1] at h
      exact List.mem_cons_of_mem _ (ih h)
    · simp only [alDel, if_neg h1, List.mem_cons] at h
      rcases h with h | h
      · exact h ▸ List.mem_cons_self _ _
      · exact List.mem_cons_of_mem _ (ih h)

theorem keys_alSet_nodup {α : Type} {l : List (String × α)} (k : String) (v : α) :
    (l.map Prod.fst).Nodup → ((alSet l k v).map Prod.fst).Nodup := by
  induction l with
  | nil => intro h; simp [alSet]
  | cons p t ih =>
    obtain ⟨k1, v1⟩ := p
    intro h
    simp only [List.map_cons, List.nodup_cons] at h
    by_cases h1 : k1 = k
    · subst h1
      simpa [alSet, List.nodup_cons] using h
    · simp only [alSet, if_neg h1, List.map_cons, List.nodup_cons]
      refine ⟨fun hc => ?_, ih h.2⟩
      obtain ⟨p, hp, hk⟩ := List.mem_map.mp hc
      rcases mem_alSet hp with rfl | hp2
      · exact h1 hk.symm
      · exact h.1 (List.mem_map.mpr ⟨p, hp2, hk⟩)

theorem keys_alDel_nodup {α : Type} {l : List (String × α)} (k : String) :
    (l.map Prod.fst).Nodup → ((alDel l k).map Prod.fst).Nodup := by
  induction l with
  | nil => intro h; simp [alDel]
  | cons p t ih =>
    obtain ⟨k1, v1⟩ := p
    intro h
    simp only [List.map_cons, List.nodup_cons] at h
    by_cases h1 : k1 = k
    · simpa [alDel, h1] using ih h.2
    · simp only [alDel, if_neg h1, List.map_cons, List.nodup_cons]
      refine ⟨fun hc => ?_, ih h.2⟩
      obtain ⟨p, hp, hk⟩ := List.mem_map.mp hc
      exact h.1 (List.mem_map.mpr ⟨p, mem_alDel hp, hk⟩)

theorem alGet_eq_none_iff {α : Type} {l : List (String × α)} {k : String} :
    alGet l k = none ↔ ∀ p ∈ l, p.1 ≠ k := by
  induction l with
  | nil => simp [alGet]
  | cons p t ih =>
    obtain ⟨k1, v1⟩ := p
    by_cases h1 : k1 = k
    · subst h1
      simp [alGet]
    · simp [alGet, h1, ih]

/-! ### Reachable-state invariants -/

theorem alGet_alSet {α : Type} (l : List (String × α)) (k m : String) (v : α) :
    alGet (alSet l k v) m = if m = k then some v else alGet l m := by
  by_cases h : m = k
  · subst h; simp [alGet_alSet_self]
  · simp [h, alGet_alSet_ne l k m v h]

theorem alGet_alDel {α : Type} (l : List (String × α)) (k m : String) :
    alGet (alDel l k) m = if m = k then none else alGet l m := by
  by_cases h : m = k
  · subst h; simp [alGet_alDel_self]
  · simp [h, alGet_alDel_ne l k m h]

theorem syncInv_init : SyncInv initState := by
  refine ⟨?_, ?_, ?_, ?_⟩ <;> simp [initState]

theorem startGuard_false {mid : String} {s : SyncState}
    (h : startGuard mid s = false) :
    mid ∉ s.completedCombats ∧ mid ∉ s.combatLocks ∧
      ∀ cd, alGet s.activeCombats mid = some cd → cd.isComplete = true := by
  unfold startGuard at h
  simp only [Bool.or_eq_false_iff, decide_eq_false_iff_not] at h
  refine ⟨h.1.1, h.1.2, fun cd hcd => ?_⟩
  rw [hcd] at h
  simpa using h.2

theorem syncInv_startStep {mid : String} {now : ℚ} {s : SyncState} (h : SyncInv s) :
    SyncInv (startStep mid now s) := by
  unfold startStep
  split
  · exact h
  · next hgn =>
    have hg : startGuard mid s = false := by
      revert hgn; cases startGuard mid s <;> simp
    obtain ⟨hc, hl, _⟩ := startGuard_false hg
    obtain ⟨h1, h2, h3, h4⟩ := h
    refine ⟨?_, ?_, ?_, ?_⟩
    · exact keys_alSet_nodup _ _ h1
    · intro p hp
      rcases mem_alSet hp with rfl | hp2
      · rfl
      · exact h2 p hp2
    · intro m hm
      rcases mem_sInsert.mp hm with hm2 | rfl
      · by_cases hmm : m = mid
        · subst hmm
          exact ⟨_, alGet_alSet_self _ _ _⟩
        · obtain ⟨cd, hcd⟩ := h3 m hm2
          exact ⟨cd, by rw [alGet_alSet_ne _ _ _ _ hmm]; exact hcd⟩
      · exact ⟨_, alGet_alSet_self _ _ _⟩
    · intro m hm
      have hne : m ≠ mid := fun hh => hc (hh ▸ hm)
      obtain ⟨ha, hb⟩ := h4 m hm
      refine ⟨by rw [alGet_alSet_ne _ _ _ _ hne]; exact ha, fun hcon => ?_⟩
      rcases mem_sInsert.mp hcon with hm2 | hm2
      · exact hb hm2
      · exact hne hm2

theorem syncInv_handleUpdate {mid : String} {st : RealCombatState} {now : ℚ}
    {s : SyncState} (h : SyncInv s) : SyncInv (handleUpdate mid st now s).1 := by
  obtain ⟨h1, h2, h3, h4⟩ := h
  unfold handleUpdate
  cases hget : alGet s.activeCombats mid with
  | none => cases st.victory <;> exact ⟨h1, h2, h3, h4⟩
  | some cd =>
    cases hv : st.victory with
    | none => exact ⟨h1, h2, h3, h4⟩
    | some v =>
      refine ⟨keys_alDel_nodup _ h1, ?_, ?_, ?_⟩
      · intro p hp
        exact h2 p (mem_alDel hp)
      · intro m hm
        obtain ⟨hm2, hne⟩ := mem_sDel.mp hm
        obtain ⟨cd2, hcd2⟩ := h3 m hm2
        exact ⟨cd2, by rw [alGet_alDel_ne _ _ _ hne]; exact hcd2⟩
      · intro m hm
        rcases mem_sInsert.mp hm with hm2 | rfl
        · obtain ⟨ha, hb⟩ := h4 m hm2
          by_cases hmm : m = mid
          · subst hmm
            exact ⟨alGet_alDel_self _ _, fun hcon => hb (mem_sDel.mp hcon).1⟩
          · exact ⟨by rw [alGet_alDel_ne _ _ _ hmm]; exact ha,
              fun hcon => hb (mem_sDel.mp hcon).1⟩
        · exact ⟨alGet_alDel_self _ _, fun hcon => (mem_sDel.mp hcon).2 rfl⟩

theorem syncInv_forceStep {mid : String} {now : ℚ} {s : SyncState}
    (h : SyncInv s) : SyncInv (forceStep mid now s).1 := by
  obtain ⟨h1, h2, h3, h4⟩ := h
  unfold forceStep
  cases hget : alGet s.activeCombats mid with
  | none => exact ⟨h1, h2, h3, h4⟩
  | some cd =>
    have hcompf : cd.isComplete = false := h2 (mid, cd) (alGet_mem hget)
    simp only [hcompf, Bool.false_eq_true, if_false]
    refine ⟨keys_alDel_nodup _ h1, ?_, ?_, ?_⟩
    · intro p hp
      exact h2 p (mem_alDel hp)
    · intro m hm
      obtain ⟨hm2, hne⟩ := mem_sDel.mp hm
      obtain ⟨cd2, hcd2⟩ := h3 m hm2
      exact ⟨cd2, by rw [alGet_alDel_ne _ _ _ hne]; exact hcd2⟩
    · intro m hm
      rcases mem_sInsert.mp hm with hm2 | rfl
      · obtain ⟨ha, hb⟩ := h4 m hm2
        by_cases hmm : m = mid
        · subst hmm
          exact ⟨alGet_alDel_self _ _, fun hcon => hb (mem_sDel.mp hcon).1⟩
        · exact ⟨by rw [alGet_alDel_ne _ _ _ hmm]; exact ha,
            fun hcon => hb (mem_sDel.mp hcon).1⟩
      · exact ⟨alGet_alDel_self _ _, fun hcon => (mem_sDel.mp hcon).2 rfl⟩

theorem syncInv_registerStep {mid : String} {cb : ℕ} {s : SyncState}
    (h : SyncInv s) : SyncInv (registerStep mid cb s) := by
  obtain ⟨h1, h2, h3, h4⟩ := h
  exact ⟨h1, h2, h3, h4⟩

theorem syncInv_aiTickStep {mid : String} {st : RealCombatState} {s : SyncState}
    (h : SyncInv s) : SyncInv (aiTickStep mid st s) := by
  obtain ⟨h1, h2, h3, h4⟩ := h
  unfold aiTickStep
  cases hget : alGet s.activeCombats mid with
  | none => exact ⟨h1, h2, h3, h4⟩
  | some cd =>
    refine ⟨keys_alSet_nodup _ _ h1, ?_, ?_, ?_⟩
    · intro p hp
      rcases mem_alSet hp with rfl | hp2
      · exact h2 (mid, cd) (alGet_mem hget)
      · exact h2 p hp2
    · intro m hm
      obtain ⟨cd2, hcd2⟩ := h3 m hm
      by_cases hmm : m = mid
      · subst hmm
        exact ⟨_, alGet_alSet_self _ _ _⟩
      · exact ⟨cd2, by rw [alGet_alSet_ne _ _ _ _ hmm]; exact hcd2⟩
    · intro m hm
      obtain ⟨ha, hb⟩ := h4 m hm
      have hne : m ≠ mid := fun hh => by rw [hh, hget] at ha; exact Option.noConfusion ha
      exact ⟨by rw [alGet_alSet_ne _ _ _ _ hne]; exact ha, hb⟩

theorem startSyncUpdStep_no_session {mid : String} {st : RealCombatState}
    {now : ℚ} {s : SyncState} (hg : startGuard mid s = false)
    (hnone : alGet s.activeCombats mid = none) :
    startSyncUpdStep mid st now s = (startStep mid now s, []) := by
  unfold startSyncUpdStep startStep handleUpdate
  simp only [hg, Bool.false_eq_true, if_false, hnone]

theorem syncInv_startSyncUpdStep {mid : String} {st : RealCombatState} {now : ℚ}
    {s : SyncState} (h : SyncInv s) : SyncInv (startSyncUpdStep mid st now s).1 := by
  cases hg : startGuard mid s with
  | true =>
    have : startSyncUpdStep mid st now s = (s, []) := by
      unfold startSyncUpdStep
      simp [hg]
    rw [this]
    exact h
  | false =>
    have hnone : alGet s.activeCombats mid = none := by
      cases hget : alGet s.activeCombats mid with
      | none => rfl
      | some cd =>
        have hfalse := h.2.1 (mid, cd) (alGet_mem hget)
        have htrue := (startGuard_false hg).2.2 cd hget
        rw [hfalse] at htrue
        exact Bool.noConfusion htrue
    rw [startSyncUpdStep_no_session hg hnone]
    exact syncInv_startStep h

theorem syncInv_step (e : SyncEvent) {s : SyncState} (h : SyncInv s) :
    SyncInv (step e s).1 := by
  cases e with
  | start mid now => exact syncInv_startStep h
  | startSyncUpd mid st now => exact syncInv_startSyncUpdStep h
  | update mid st now => exact syncInv_handleUpdate h
  | register mid cb => exact syncInv_registerStep h
  | forceEnd mid now => exact syncInv_forceStep h
  | aiTick mid st => exact syncInv_aiTickStep h

theorem syncInv_run {s : SyncState} (h : SyncInv s) (evs : List SyncEvent) :
    SyncInv (run s evs) := by
  induction evs generalizing s with
  | nil => exact h
  | cons e t ih => exact ih (syncInv_step e h)

theorem syncInv_reachable {s : SyncState} (h : Reachable s) : SyncInv s := by
  obtain ⟨evs, rfl⟩ := h
  exact syncInv_run syncInv_init evs

/-! ### Formula Engine lemmas -/

theorem foldl_add_nonneg {α : Type} (f : α → ℚ) (l : List α)
    (h : ∀ a ∈ l, 0 ≤ f a) :
    ∀ init : ℚ, 0 ≤ init → 0 ≤ l.foldl (fun s a => s + f a) init := by
  induction l with
  | nil => intro init hi; simpa using hi
  | cons a t ih =>
    intro init hi
    simp only [List.foldl_cons]
    exact ih (fun b hb => h b (List.mem_cons_of_mem _ hb))
      _ (add_nonneg hi (h a (List.mem_cons_self _ _)))

theorem squadDpsOf_ge (squad : List SquadMember) : (1 : ℚ) / 2 ≤ squadDpsOf squad := by
  have := le_max_left (0.5 : ℚ) (squad.foldl (fun s m => s + computeMemberDps m) 0)
  unfold squadDpsOf
  linarith

theorem enemyDpsOf_ge (enemies : List Enemy) : (1 : ℚ) / 2 ≤ enemyDpsOf enemies := by
  have := le_max_left (0.5 : ℚ) (enemies.foldl (fun s e => s + computeEnemyDps e) 0)
  unfold enemyDpsOf
  linarith

theorem difficultyMultiplierOf_pos (d : ℚ) : 0 < difficultyMultiplierOf d := by
  unfold difficultyMultiplierOf
  apply Real.rpow_pos_of_pos
  have h1 : (0 : ℚ) < max 1 (jsOr d 1) := lt_of_lt_of_le one_pos (le_max_left _ _)
  exact_mod_cast h1

theorem powerFactorOf_nonneg (squad : List SquadMember) (enemies : List Enemy) :
    0 ≤ powerFactorOf squad enemies := by
  unfold powerFactorOf
  split_ifs <;> norm_num

theorem totalEnemyHealthOf_nonneg {enemies : List Enemy}
    (h : ∀ e ∈ enemies, 0 ≤ e.health.getD 40) : 0 ≤ totalEnemyHealthOf enemies := by
  unfold totalEnemyHealthOf
  exact foldl_add_nonneg (fun e => (e.health.getD 40) * 30) enemies
    (fun e he => mul_nonneg (h e he) (by norm_num)) 0 le_rfl

theorem travelMinutesOf_ge (squad : List SquadMember) (difficulty : ℚ)
    (location : String) (subTerrain : Option String) :
    9 ≤ travelMinutesOf squad difficulty location subTerrain :=
  le_max_left _ _

theorem travelMinutesOf_le (squad : List SquadMember) (difficulty : ℚ)
    (location : String) (subTerrain : Option String) :
    travelMinutesOf squad difficulty location subTerrain ≤ 600 :=
  max_le (by norm_num) (min_le_left _ _)

/-! ### Claims about the Formula Engine -/

/-- C8: for every squad roster, every difficulty ≥ 0 and arbitrary
location and sub-terrain strings, `travelMinutes` is an integer (it is
an `ℤ` value by construction) in the closed interval `[9, 600]`,
computed by rounding the product of base travel time, terrain factor,
sub-terrain factor and the reduction factor floored at 0.6, then
clamping to `[9, 600]`. -/
theorem c8_travel_minutes_in_range (squad : List SquadMember) (enemies : List Enemy)
    (difficulty : ℚ) (location : String) (subTerrain : Option String)
    (h : 0 ≤ difficulty) :
    9 ≤ (calculateUniversalCombatDuration squad enemies difficulty location subTerrain).travelMinutes ∧
    (calculateUniversalCombatDuration squad enemies difficulty location subTerrain).travelMinutes ≤ 600 ∧
    (calculateUniversalCombatDuration squad enemies difficulty location subTerrain).travelMinutes =
      clamp (jsRound (baseTravelOf difficulty * terrainFactorOf location *
        subFactorOf subTerrain * max 0.6 (reductionOf squad))) 9 600 :=
  ⟨travelMinutesOf_ge squad difficulty location subTerrain,
   travelMinutesOf_le squad difficulty location subTerrain, rfl⟩

theorem c8_travel_minutes_in_range_witness :
    (0 : ℚ) ≤ 1 ∧
    9 ≤ (calculateUniversalCombatDuration [] [] 1 "" none).travelMinutes ∧
    (calculateUniversalCombatDuration [] [] 1 "" none).travelMinutes ≤ 600 :=
  ⟨by norm_num, (c8_travel_minutes_in_range [] [] 1 "" none (by norm_num)).1,
   (c8_travel_minutes_in_range [] [] 1 "" none (by norm_num)).2.1⟩

/-- C6 counterexample: an enemy roster whose (type-representable)
declared health is negative makes `estimatedDuration` negative, so the
claim's "for every enemy roster ... estimatedDurationSeconds >= 0" is
false as stated. -/
theorem c6_counterexample :
    (calculateUniversalCombatDuration []
      [⟨none, none, some (-100), .absent⟩] 1 "" none).estimatedDuration < 0 := by
  have hterr : terrainFactorOf "" = 1.3 := by simp +decide [terrainFactorOf]
  have hsub : subFactorOf none = 1.0 := by simp +decide [subFactorOf]
  have htr : travelMinutesOf [] 1 "" none = 42 := by
    norm_num [travelMinutesOf, clamp, jsRound, baseTravelOf, hterr, hsub, reductionOf,
      avgIntOf, avgSurvOf, max_def]
  have hdm : difficultyMultiplierOf 1 = 1 := by
    unfold difficultyMultiplierOf jsOr
    norm_num [Real.one_rpow]
  have hpr : powerRatioOf [] [⟨none, none, some (-100), .absent⟩] = 2 / 9 := by
    norm_num [powerRatioOf, squadDpsOf, enemyDpsOf, computeEnemyDps, max_def]
  have hpf : powerFactorOf [] [⟨none, none, some (-100), .absent⟩] = 5 / 2 := by
    rw [powerFactorOf, hpr]
    norm_num
  have hbase : baseCombatSecondsOf [] [⟨none, none, some (-100), .absent⟩] = -6000 := by
    norm_num [baseCombatSecondsOf, totalEnemyHealthOf, squadDpsOf, max_def]
  unfold calculateUniversalCombatDuration adjustedCombatOf
  rw [hbase, hdm, hpf, htr]
  norm_num

/-- C6 (amended): `estimate` is total over all rosters — it is a Lean
function into `ℝ`/`ℚ`/`ℤ`, so the result is always a finite number and
never a fault — and `squadDps` and `enemyDps` are each floored at 0.5,
so the division `totalEnemyHealth / squadDps` is never a division by
zero even for an empty squad; provided additionally that every enemy's
declared health (default 40) is nonnegative, `estimatedDuration ≥ 0`. -/
theorem c6_estimate_nonneg (squad : List SquadMember) (enemies : List Enemy)
    (difficulty : ℚ) (location : String) (subTerrain : Option String)
    (h : ∀ e ∈ enemies, 0 ≤ e.health.getD 40) :
    (1 : ℚ) / 2 ≤ (calculateUniversalCombatDuration squad enemies difficulty
        location subTerrain).squadDps ∧
    (1 : ℚ) / 2 ≤ (calculateUniversalCombatDuration squad enemies difficulty
        location subTerrain).enemyDps ∧
    0 ≤ (calculateUniversalCombatDuration squad enemies difficulty
        location subTerrain).estimatedDuration := by
  refine ⟨squadDpsOf_ge squad, enemyDpsOf_ge enemies, ?_⟩
  have hbase : (0 : ℚ) ≤ baseCombatSecondsOf squad enemies := by
    unfold baseCombatSecondsOf
    exact div_nonneg (totalEnemyHealthOf_nonneg h)
      (le_trans (by norm_num) (squadDpsOf_ge squad))
  have hadj : (0 : ℝ) ≤ adjustedCombatOf squad enemies difficulty := by
    unfold adjustedCombatOf
    apply mul_nonneg (mul_nonneg _ (le_of_lt (difficultyMultiplierOf_pos difficulty)))
    · exact_mod_cast powerFactorOf_nonneg squad enemies
    · exact_mod_cast hbase
  have htr : (0 : ℝ) ≤ ((travelMinutesOf squad difficulty location subTerrain : ℤ) : ℝ) := by
    have h9 := travelMinutesOf_ge squad difficulty location subTerrain
    have : (0 : ℤ) ≤ travelMinutesOf squad difficulty location subTerrain := by omega
    exact_mod_cast this
  show 0 ≤ adjustedCombatOf squad enemies difficulty +
    ((travelMinutesOf squad difficulty location subTerrain : ℤ) : ℝ) * 60
  nlinarith

theorem c6_estimate_nonneg_witness :
    (∀ e ∈ ([] : List Enemy), 0 ≤ e.health.getD 40) ∧
    0 ≤ (calculateUniversalCombatDuration [] [] 1 "" none).estimatedDuration :=
  ⟨by simp, (c6_estimate_nonneg [] [] 1 "" none (by simp)).2.2⟩

/-- C7 counterexample: with `totalEnemyHealth = 0` (held fixed between
the two scenarios, as the claim allows), the adjusted-combat
contribution is 0 in both the `powerRatio > 2` branch and the
`powerRatio ∈ [0.5, 2]` branch, so the claimed strict inequality fails.
The squad has DPS 2; enemy roster A has DPS 0.5 (ratio 4), roster B has
DPS 2 (ratio 1); both rosters declare health 0. -/
theorem c7_counterexample :
    totalEnemyHealthOf [⟨none, none, some 0, .inlineStats (some 0) none⟩] =
      totalEnemyHealthOf [⟨none, none, some 0, .inlineStats (some (4/3)) none⟩] ∧
    2 < powerRatioOf [⟨⟨0, 10, 0, 0⟩, none⟩]
        [⟨none, none, some 0, .inlineStats (some 0) none⟩] ∧
    1 / 2 ≤ powerRatioOf [⟨⟨0, 10, 0, 0⟩, none⟩]
        [⟨none, none, some 0, .inlineStats (some (4/3)) none⟩] ∧
    powerRatioOf [⟨⟨0, 10, 0, 0⟩, none⟩]
        [⟨none, none, some 0, .inlineStats (some (4/3)) none⟩] ≤ 2 ∧
    ¬(adjustedCombatOf [⟨⟨0, 10, 0, 0⟩, none⟩]
        [⟨none, none, some 0, .inlineStats (some 0) none⟩] 1 <
      adjustedCombatOf [⟨⟨0, 10, 0, 0⟩, none⟩]
        [⟨none, none, some 0, .inlineStats (some (4/3)) none⟩] 1) := by
  have hbA : baseCombatSecondsOf [⟨⟨0, 10, 0, 0⟩, none⟩]
      [⟨none, none, some 0, .inlineStats (some 0) none⟩] = 0 := by
    norm_num [baseCombatSecondsOf, totalEnemyHealthOf, squadDpsOf, computeMemberDps, max_def]
  have hbB : baseCombatSecondsOf [⟨⟨0, 10, 0, 0⟩, none⟩]
      [⟨none, none, some 0, .inlineStats (some (4/3)) none⟩] = 0 := by
    norm_num [baseCombatSecondsOf, totalEnemyHealthOf, squadDpsOf, computeMemberDps, max_def]
  have hadjA : adjustedCombatOf [⟨⟨0, 10, 0, 0⟩, none⟩]
      [⟨none, none, some 0, .inlineStats (some 0) none⟩] 1 = 0 := by
    unfold adjustedCombatOf
    rw [hbA]
    norm_num
  have hadjB : adjustedCombatOf [⟨⟨0, 10, 0, 0⟩, none⟩]
      [⟨none, none, some 0, .inlineStats (some (4/3)) none⟩] 1 = 0 := by
    unfold adjustedCombatOf
    rw [hbB]
    norm_num
  refine ⟨by norm_num [totalEnemyHealthOf], ?_, ?_, ?_, ?_⟩
  · norm_num [powerRatioOf, squadDpsOf, enemyDpsOf, computeMemberDps, computeEnemyDps, max_def]
  · norm_num [powerRatioOf, squadDpsOf, enemyDpsOf, computeMemberDps, computeEnemyDps, max_def]
  · norm_num [powerRatioOf, squadDpsOf, enemyDpsOf, computeMemberDps, computeEnemyDps, max_def]
  · rw [hadjA, hadjB]
    exact lt_irrefl 0

/-- C7 (amended): `powerRatio = squadDps / max(enemyDps, 0.5)`; the
difficulty-adjusted base combat seconds are multiplied by exactly 0.6
when `powerRatio > 2`, by 2.5 when `powerRatio < 0.5` and by 1.2
otherwise; and — provided `totalEnemyHealth` is positive — holding
`totalEnemyHealth`, the squad (hence `squadDps`) and the difficulty
fixed, a scenario with `powerRatio > 2` yields a strictly smaller
adjusted-combat contribution than one with `powerRatio ∈ [0.5, 2]`. -/
theorem c7_power_ratio_branches :
    (∀ (squad : List SquadMember) (enemies : List Enemy),
      powerRatioOf squad enemies = squadDpsOf squad / max (enemyDpsOf enemies) 0.5) ∧
    (∀ (squad : List SquadMember) (enemies : List Enemy) (d : ℚ),
      adjustedCombatOf squad enemies d =
        ((baseCombatSecondsOf squad enemies : ℚ) : ℝ) * difficultyMultiplierOf d *
          (if 2 < powerRatioOf squad enemies then (0.6 : ℝ)
           else if powerRatioOf squad enemies < 0.5 then 2.5 else 1.2)) ∧
    (∀ (squad : List SquadMember) (eA eB : List Enemy) (d : ℚ),
      totalEnemyHealthOf eA = totalEnemyHealthOf eB →
      0 < totalEnemyHealthOf eA →
      2 < powerRatioOf squad eA →
      1 / 2 ≤ powerRatioOf squad eB → powerRatioOf squad eB ≤ 2 →
      adjustedCombatOf squad eA d < adjustedCombatOf squad eB d) := by
  refine ⟨fun squad enemies => rfl, ?_, ?_⟩
  · intro squad enemies d
    unfold adjustedCombatOf powerFactorOf
    split_ifs <;> norm_num
  · intro squad eA eB d hH hpos hA hB1 hB2
    have hfA : powerFactorOf squad eA = 0.6 := by
      unfold powerFactorOf
      rw [if_pos hA]
    have hfB : powerFactorOf squad eB = 1.2 := by
      have h05 : (0.5 : ℚ) = 1 / 2 := by norm_num
      unfold powerFactorOf
      rw [if_neg (not_lt.mpr hB2), if_neg (not_lt.mpr (h05 ▸ hB1))]
    have hbeq : baseCombatSecondsOf squad eB = baseCombatSecondsOf squad eA := by
      unfold baseCombatSecondsOf
      rw [hH]
    have hbpos : 0 < baseCombatSecondsOf squad eA :=
      div_pos hpos (lt_of_lt_of_le (by norm_num) (squadDpsOf_ge squad))
    unfold adjustedCombatOf
    rw [hfA, hfB, hbeq]
    have hX : (0 : ℝ) < ((baseCombatSecondsOf squad eA : ℚ) : ℝ) * difficultyMultiplierOf d :=
      mul_pos (by exact_mod_cast hbpos) (difficultyMultiplierOf_pos d)
    have h6 : ((0.6 : ℚ) : ℝ) = 0.6 := by norm_num
    have h12 : ((1.2 : ℚ) : ℝ) = 1.2 := by norm_num
    rw [h6, h12]
    nlinarith [hX]

theorem c7_power_ratio_branches_witness :
    totalEnemyHealthOf [⟨none, none, some 1, .inlineStats (some 0) none⟩] =
      totalEnemyHealthOf [⟨none, none, some 1, .inlineStats (some (4/3)) none⟩] ∧
    0 < totalEnemyHealthOf [⟨none, none, some 1, .inlineStats (some 0) none⟩] ∧
    2 < powerRatioOf [⟨⟨0, 10, 0, 0⟩, none⟩]
        [⟨none, none, some 1, .inlineStats (some 0) none⟩] ∧
    1 / 2 ≤ powerRatioOf [⟨⟨0, 10, 0, 0⟩, none⟩]
        [⟨none, none, some 1, .inlineStats (some (4/3)) none⟩] ∧
    powerRatioOf [⟨⟨0, 10, 0, 0⟩, none⟩]
        [⟨none, none, some 1, .inlineStats (some (4/3)) none⟩] ≤ 2 ∧
    adjustedCombatOf [⟨⟨0, 10, 0, 0⟩, none⟩]
        [⟨none, none, some 1, .inlineStats (some 0) none⟩] 1 <
      adjustedCombatOf [⟨⟨0, 10, 0, 0⟩, none⟩]
        [⟨none, none, some 1, .inlineStats (some (4/3)) none⟩] 1 := by
  have h1 : totalEnemyHealthOf [(⟨none, none, some 1, .inlineStats (some 0) none⟩ : Enemy)] =
      totalEnemyHealthOf [(⟨none, none, some 1, .inlineStats (some (4/3)) none⟩ : Enemy)] := by
    norm_num [totalEnemyHealthOf]
  have h2 : 0 < totalEnemyHealthOf [(⟨none, none, some 1, .inlineStats (some 0) none⟩ : Enemy)] := by
    norm_num [totalEnemyHealthOf]
  have h3 : 2 < powerRatioOf [⟨⟨0, 10, 0, 0⟩, none⟩]
      [⟨none, none, some 1, .inlineStats (some 0) none⟩] := by
    norm_num [powerRatioOf, squadDpsOf, enemyDpsOf, computeMemberDps, computeEnemyDps, max_def]
  have h4 : 1 / 2 ≤ powerRatioOf [⟨⟨0, 10, 0, 0⟩, none⟩]
      [⟨none, none, some 1, .inlineStats (some (4/3)) none⟩] := by
    norm_num [powerRatioOf, squadDpsOf, enemyDpsOf, computeMemberDps, computeEnemyDps, max_def]
  have h5 : powerRatioOf [⟨⟨0, 10, 0, 0⟩, none⟩]
      [⟨none, none, some 1, .inlineStats (some (4/3)) none⟩] ≤ 2 := by
    norm_num [powerRatioOf, squadDpsOf, enemyDpsOf, computeMemberDps, computeEnemyDps, max_def]
  exact ⟨h1, h2, h3, h4, h5,
    c7_power_ratio_branches.2.2 _ _ _ 1 h1 h2 h3 h4 h5⟩

/-! ### Synchronizer step-reduction lemmas -/

theorem handleUpdate_fires {mid : String} {st : RealCombatState} {now : ℚ}
    {s : SyncState} {cd : SessionData} {v : Bool}
    (hget : alGet s.activeCombats mid = some cd) (hv : st.victory = some v) :
    handleUpdate mid st now s =
      ({ s with
          finalResults := alSet s.finalResults mid
            ⟨v, (now - st.startTime) / 1000, healthsOf st.combatants⟩
          activeCombats := alDel s.activeCombats mid
          missionCompletionCallbacks := alDel s.missionCompletionCallbacks mid
          completedCombats := sInsert s.completedCombats mid
          combatLocks := sDel s.combatLocks mid },
        ((alGet s.missionCompletionCallbacks mid).getD []).map
          (fun c => (c, v, (now - st.startTime) / 1000))) := by
  unfold handleUpdate
  rw [hget, hv]

theorem handleUpdate_no_session {mid : String} {st : RealCombatState} {now : ℚ}
    {s : SyncState} (hget : alGet s.activeCombats mid = none) :
    handleUpdate mid st now s = (s, []) := by
  unfold handleUpdate
  rw [hget]

theorem handleUpdate_no_terminal {mid : String} {st : RealCombatState} {now : ℚ}
    {s : SyncState} (hv : st.victory = none) :
    handleUpdate mid st now s = (s, []) := by
  unfold handleUpdate
  rw [hv]
  cases alGet s.activeCombats mid <;> rfl

theorem forceStep_fires {mid : String} {now : ℚ} {s : SyncState} {cd : SessionData}
    (hget : alGet s.activeCombats mid = some cd) (hcomp : cd.isComplete = false) :
    forceStep mid now s =
      ({ s with
          finalResults := alSet s.finalResults mid
            ⟨false,
              (match cd.aiState with
               | some st => if now - st.startTime = 0 then now else now - st.startTime
               | none => now) / 1000,
              match cd.aiState with
              | some st => healthsOf st.combatants
              | none => []⟩
          activeCombats := alDel s.activeCombats mid
          missionCompletionCallbacks := alDel s.missionCompletionCallbacks mid
          completedCombats := sInsert s.completedCombats mid
          combatLocks := sDel s.combatLocks mid },
        []) := by
  unfold forceStep
  rw [hget]
  simp only [hcomp, Bool.false_eq_true, if_false]

theorem forceStep_no_session {mid : String} {now : ℚ} {s : SyncState}
    (hget : alGet s.activeCombats mid = none) : forceStep mid now s = (s, []) := by
  unfold forceStep
  rw [hget]

theorem startStep_fresh {mid : String} {now : ℚ} {s : SyncState}
    (hg : startGuard mid s = false) :
    startStep mid now s =
      { s with
          combatLocks := sInsert s.combatLocks mid
          activeCombats := alSet s.activeCombats mid ⟨false, 0, now, none⟩ } := by
  unfold startStep
  rw [hg]
  rfl

theorem startStep_guarded {mid : String} {now : ℚ} {s : SyncState}
    (hg : startGuard mid s = true) : startStep mid now s = s := by
  unfold startStep
  rw [hg]
  rfl

theorem registerStep_active {mid : String} {cb : ℕ} {s : SyncState} :
    (registerStep mid cb s).activeCombats = s.activeCombats := rfl

theorem regList_registerStep {mid : String} {cb : ℕ} {s : SyncState} :
    regList (registerStep mid cb s) mid = regList s mid ++ [cb] := by
  unfold regList registerStep
  rw [alGet_alSet_self]
  rfl

theorem run_registerEvents_active (s : SyncState) (mid : String) (cbs : List ℕ) :
    (run s (registerEvents mid cbs)).activeCombats = s.activeCombats := by
  induction cbs generalizing s with
  | nil => rfl
  | cons c t ih => exact ih (registerStep mid c s)

theorem run_registerEvents_regList (s : SyncState) (mid : String) (cbs : List ℕ) :
    regList (run s (registerEvents mid cbs)) mid = regList s mid ++ cbs := by
  induction cbs generalizing s with
  | nil => simp [run, registerEvents]
  | cons c t ih =>
    show regList (run (registerStep mid c s) (registerEvents mid t)) mid = _
    rw [ih (registerStep mid c s), regList_registerStep]
    simp

/-! ### Claims about the Session Synchronizer -/

/-- C1: if `N` listeners are registered via `onCombatComplete` before
the mission's terminal event and a session is registered, processing the
terminal event invokes exactly those listeners, each exactly once, in
registration order, all with the same `(victory, actualDuration)`
argument pair (the invocation log equals the registration list mapped to
that one pair), and afterwards the mission's listener list is cleared. -/
theorem c1_exactly_once_delivery (s : SyncState) (mid : String) (cbs : List ℕ)
    (cd : SessionData) (st : RealCombatState) (v : Bool) (now : ℚ)
    (hsess : alGet s.activeCombats mid = some cd)
    (hnocb : alGet s.missionCompletionCallbacks mid = none)
    (hv : st.victory = some v) :
    (step (.update mid st now) (run s (registerEvents mid cbs))).2 =
      cbs.map (fun c => (c, v, (now - st.startTime) / 1000)) ∧
    alGet (step (.update mid st now)
        (run s (registerEvents mid cbs))).1.missionCompletionCallbacks mid = none := by
  have hact : alGet (run s (registerEvents mid cbs)).activeCombats mid = some cd := by
    rw [run_registerEvents_active]
    exact hsess
  have hreg : regList (run s (registerEvents mid cbs)) mid = cbs := by
    rw [run_registerEvents_regList]
    unfold regList
    rw [hnocb]
    simp
  have hstep := @handleUpdate_fires mid st now (run s (registerEvents mid cbs)) cd v hact hv
  constructor
  · show (handleUpdate mid st now (run s (registerEvents mid cbs))).2 = _
    rw [hstep]
    show (regList (run s (registerEvents mid cbs)) mid).map _ = _
    rw [hreg]
  · show alGet (handleUpdate mid st now
      (run s (registerEvents mid cbs))).1.missionCompletionCallbacks mid = none
    rw [hstep]
    exact alGet_alDel_self _ _

theorem c1_exactly_once_delivery_witness :
    alGet (run initState [.start "m" 0]).activeCombats "m" =
      some ⟨false, 0, 0, none⟩ ∧
    alGet (run initState [.start "m" 0]).missionCompletionCallbacks "m" = none ∧
    (step (.update "m" ⟨some true, 0, []⟩ 5)
        (run (run initState [.start "m" 0]) (registerEvents "m" [1, 2]))).2 =
      [1, 2].map (fun c => (c, true, ((5 : ℚ) - 0) / 1000)) ∧
    alGet (step (.update "m" ⟨some true, 0, []⟩ 5)
        (run (run initState [.start "m" 0])
          (registerEvents "m" [1, 2]))).1.missionCompletionCallbacks "m" = none :=
  ⟨by decide, by decide,
   (c1_exactly_once_delivery (run initState [.start "m" 0]) "m" [1, 2]
      ⟨false, 0, 0, none⟩ ⟨some true, 0, []⟩ true 5 (by decide) (by decide) rfl).1,
   (c1_exactly_once_delivery (run initState [.start "m" 0]) "m" [1, 2]
      ⟨false, 0, 0, none⟩ ⟨some true, 0, []⟩ true 5 (by decide) (by decide) rfl).2⟩

theorem filter_key_nil {α : Type} {l : List (String × α)} {mid : String}
    (q : String × α → Bool) (h : ∀ p ∈ l, p.1 ≠ mid) :
    l.filter (fun p => p.1 == mid && q p) = [] := by
  induction l with
  | nil => rfl
  | cons p t ih =>
    have hne : p.1 ≠ mid := h p (List.mem_cons_self _ _)
    have hcond : (p.1 == mid && q p) = false := by simp [hne]
    simp only [List.filter_cons, hcond, Bool.false_eq_true, if_false]
    exact ih (fun b hb => h b (List.mem_cons_of_mem _ hb))

theorem filter_nodup_le_one {α : Type} {l : List (String × α)} {mid : String}
    (q : String × α → Bool) (h : (l.map Prod.fst).Nodup) :
    (l.filter (fun p => p.1 == mid && q p)).length ≤ 1 := by
  induction l with
  | nil => simp
  | cons p t ih =>
    simp only [List.map_cons, List.nodup_cons] at h
    by_cases hk : p.1 = mid
    · have hrest : t.filter (fun p => p.1 == mid && q p) = [] := by
        apply filter_key_nil
        intro b hb hbm
        exact h.1 (by
          rw [hk, ← hbm]
          exact List.mem_map.mpr ⟨b, hb, rfl⟩)
      by_cases hq : (p.1 == mid && q p) = true
      · simp [List.filter_cons, hq, hrest]
      · simp only [List.filter_cons, hq, if_false]
        rw [hrest]
        simp
    · have hq : (p.1 == mid && q p) = false := by
        simp [hk]
      simp only [List.filter_cons, hq, Bool.false_eq_true, if_false]
      exact ih h.2

theorem filter_alSet_fresh {α : Type} {l : List (String × α)} {mid : String}
    {v : α} (q : String × α → Bool) (hget : alGet l mid = none)
    (hq : q (mid, v) = true) :
    (alSet l mid v).filter (fun p => p.1 == mid && q p) = [(mid, v)] := by
  induction l with
  | nil => simp [alSet, List.filter, hq]
  | cons p t ih =>
    obtain ⟨k1, v1⟩ := p
    by_cases hk : k1 = mid
    · rw [hk] at hget
      simp [alGet] at hget
    · simp only [alGet, if_neg hk] at hget
      have hcond : ((k1, v1).1 == mid && q (k1, v1)) = false := by simp [hk]
      simp only [alSet, if_neg hk, List.filter_cons, hcond, Bool.false_eq_true, if_false]
      exact ih hget

theorem startGuard_eq_true_iff {mid : String} {s : SyncState} :
    startGuard mid s = true ↔
      mid ∈ s.completedCombats ∨ mid ∈ s.combatLocks ∨
        ∃ cd, alGet s.activeCombats mid = some cd ∧ cd.isComplete = false := by
  unfold startGuard
  cases hget : alGet s.activeCombats mid with
  | none => simp
  | some cd => simp [Bool.not_eq_true', or_assoc]

/-- C2: in every reachable synchronizer state at most one non-complete
session exists per mission ID; a `startSynchronizedCombat` call finding
the mission completed, locked, or live returns the state unchanged; a
second `startSynchronizedCombat` call is always a no-op after a first
one; and a first call on a fresh mission leaves exactly one live
session. -/
theorem c2_single_session_idempotent :
    (∀ s, Reachable s → ∀ mid, liveSessionCount s mid ≤ 1) ∧
    (∀ s mid now, (mid ∈ s.completedCombats ∨ mid ∈ s.combatLocks ∨
        ∃ cd, alGet s.activeCombats mid = some cd ∧ cd.isComplete = false) →
      startStep mid now s = s) ∧
    (∀ s mid nowA nowB,
      startStep mid nowB (startStep mid nowA s) = startStep mid nowA s) ∧
    (∀ s mid now, Reachable s → startGuard mid s = false →
      liveSessionCount (startStep mid now s) mid = 1) := by
  refine ⟨?_, ?_, ?_, ?_⟩
  · intro s hs mid
    exact filter_nodup_le_one _ (syncInv_reachable hs).1
  · intro s mid now h
    exact startStep_guarded (startGuard_eq_true_iff.mpr h)
  · intro s mid nowA nowB
    cases hg : startGuard mid s with
    | true => rw [startStep_guarded hg, startStep_guarded hg]
    | false =>
      rw [startStep_fresh hg]
      apply startStep_guarded
      apply startGuard_eq_true_iff.mpr
      exact Or.inr (Or.inl (mem_sInsert.mpr (Or.inr rfl)))
  · intro s mid now hs hg
    have hnone : alGet s.activeCombats mid = none := by
      cases hget : alGet s.activeCombats mid with
      | none => rfl
      | some cd =>
        have hfalse := (syncInv_reachable hs).2.1 (mid, cd) (alGet_mem hget)
        have htrue := (startGuard_false hg).2.2 cd hget
        rw [hfalse] at htrue
        exact Bool.noConfusion htrue
    rw [startStep_fresh hg]
    unfold liveSessionCount
    show ((alSet s.activeCombats mid ⟨false, 0, now, none⟩).filter _).length = 1
    rw [filter_alSet_fresh _ hnone (by simp)]
    rfl

theorem c2_single_session_idempotent_witness :
    Reachable initState ∧
    ("m" ∈ (run initState [.start "m" 0]).combatLocks) ∧
    startGuard "m" initState = false ∧
    liveSessionCount initState "m" ≤ 1 ∧
    startStep "m" 1 (run initState [.start "m" 0]) = run initState [.start "m" 0] ∧
    liveSessionCount (startStep "m" 0 initState) "m" = 1 :=
  ⟨⟨[], rfl⟩, by decide, by decide,
   c2_single_session_idempotent.1 initState ⟨[], rfl⟩ "m",
   c2_single_session_idempotent.2.1 (run initState [.start "m" 0]) "m" 1
     (Or.inr (Or.inl (by decide))),
   c2_single_session_idempotent.2.2.2 initState "m" 0 ⟨[], rfl⟩ (by decide)⟩

theorem startSyncUpdStep_guarded {mid : String} {st : RealCombatState} {now : ℚ}
    {s : SyncState} (hg : startGuard mid s = true) :
    startSyncUpdStep mid st now s = (s, []) := by
  unfold startSyncUpdStep
  rw [hg]
  rfl

theorem aiTickStep_no_session {mid : String} {st : RealCombatState} {s : SyncState}
    (hget : alGet s.activeCombats mid = none) : aiTickStep mid st s = s := by
  unfold aiTickStep
  rw [hget]

/-- What a terminal update for mission `m` does to the bookkeeping of a
different mission `mid`: nothing. -/
theorem handleUpdate_other {m mid : String} (hne : mid ≠ m)
    (st : RealCombatState) (now : ℚ) (s : SyncState) :
    alGet (handleUpdate m st now s).1.activeCombats mid = alGet s.activeCombats mid ∧
    ((mid ∈ (handleUpdate m st now s).1.completedCombats) ↔ mid ∈ s.completedCombats) ∧
    ((mid ∈ (handleUpdate m st now s).1.combatLocks) ↔ mid ∈ s.combatLocks) ∧
    alGet (handleUpdate m st now s).1.finalResults mid = alGet s.finalResults mid ∧
    alGet (handleUpdate m st now s).1.missionCompletionCallbacks mid =
      alGet s.missionCompletionCallbacks mid := by
  unfold handleUpdate
  cases hget : alGet s.activeCombats m with
  | none => cases st.victory <;> simp
  | some cd =>
    cases st.victory with
    | none => simp
    | some v =>
      refine ⟨alGet_alDel_ne _ _ _ hne, ?_, ?_, alGet_alSet_ne _ _ _ _ hne,
        alGet_alDel_ne _ _ _ hne⟩
      · rw [mem_sInsert]
        simp [hne]
      · rw [mem_sDel]
        simp [hne]

theorem forceStep_other {m mid : String} (hne : mid ≠ m) (now : ℚ) (s : SyncState) :
    alGet (forceStep m now s).1.activeCombats mid = alGet s.activeCombats mid ∧
    ((mid ∈ (forceStep m now s).1.completedCombats) ↔ mid ∈ s.completedCombats) ∧
    ((mid ∈ (forceStep m now s).1.combatLocks) ↔ mid ∈ s.combatLocks) ∧
    alGet (forceStep m now s).1.finalResults mid = alGet s.finalResults mid ∧
    alGet (forceStep m now s).1.missionCompletionCallbacks mid =
      alGet s.missionCompletionCallbacks mid := by
  cases hget : alGet s.activeCombats m with
  | none => rw [forceStep_no_session hget]; simp
  | some cd =>
    cases hcomp : cd.isComplete with
    | true =>
      have : forceStep m now s = (s, []) := by
        unfold forceStep
        rw [hget]
        simp [hcomp]
      rw [this]
      simp
    | false =>
      rw [forceStep_fires hget hcomp]
      refine ⟨alGet_alDel_ne _ _ _ hne, ?_, ?_, alGet_alSet_ne _ _ _ _ hne,
        alGet_alDel_ne _ _ _ hne⟩
      · rw [mem_sInsert]
        simp [hne]
      · rw [mem_sDel]
        simp [hne]

theorem startStep_other {m mid : String} (hne : mid ≠ m) (now : ℚ) (s : SyncState) :
    alGet (startStep m now s).activeCombats mid = alGet s.activeCombats mid ∧
    ((mid ∈ (startStep m now s).completedCombats) ↔ mid ∈ s.completedCombats) ∧
    ((mid ∈ (startStep m now s).combatLocks) ↔ mid ∈ s.combatLocks) ∧
    alGet (startStep m now s).finalResults mid = alGet s.finalResults mid ∧
    alGet (startStep m now s).missionCompletionCallbacks mid =
      alGet s.missionCompletionCallbacks mid := by
  cases hg : startGuard m s with
  | true => rw [startStep_guarded hg]; simp
  | false =>
    rw [startStep_fresh hg]
    refine ⟨alGet_alSet_ne _ _ _ _ hne, Iff.rfl, ?_, rfl, rfl⟩
    rw [mem_sInsert]
    simp [hne]

theorem startSyncUpdStep_other {m mid : String} (hne : mid ≠ m)
    (st : RealCombatState) (now : ℚ) (s : SyncState) :
    alGet (startSyncUpdStep m st now s).1.activeCombats mid = alGet s.activeCombats mid ∧
    ((mid ∈ (startSyncUpdStep m st now s).1.completedCombats) ↔ mid ∈ s.completedCombats) ∧
    ((mid ∈ (startSyncUpdStep m st now s).1.combatLocks) ↔ mid ∈ s.combatLocks) ∧
    alGet (startSyncUpdStep m st now s).1.finalResults mid = alGet s.finalResults mid ∧
    alGet (startSyncUpdStep m st now s).1.missionCompletionCallbacks mid =
      alGet s.missionCompletionCallbacks mid := by
  cases hg : startGuard m s with
  | true => rw [startSyncUpdStep_guarded hg]; simp
  | false =>
    have hexp : startSyncUpdStep m st now s =
        (let s1 := { s with combatLocks := sInsert s.combatLocks m }
         let r := handleUpdate m st now s1
         ({ r.1 with
             activeCombats := alSet r.1.activeCombats m ⟨false, 0, now, none⟩ },
           r.2)) := by
      unfold startSyncUpdStep
      rw [hg]
      rfl
    rw [hexp]
    have hother := handleUpdate_other hne st now
      { s with combatLocks := sInsert s.combatLocks m }
    refine ⟨?_, ?_, ?_, ?_, ?_⟩
    · rw [alGet_alSet_ne _ _ _ _ hne, hother.1]
    · exact hother.2.1
    · rw [hother.2.2.1, mem_sInsert]
      simp [hne]
    · exact hother.2.2.2.1
    · exact hother.2.2.2.2

theorem aiTickStep_other {m mid : String} (hne : mid ≠ m)
    (st : RealCombatState) (s : SyncState) :
    alGet (aiTickStep m st s).activeCombats mid = alGet s.activeCombats mid ∧
    (aiTickStep m st s).completedCombats = s.completedCombats ∧
    (aiTickStep m st s).combatLocks = s.combatLocks ∧
    (aiTickStep m st s).finalResults = s.finalResults ∧
    (aiTickStep m st s).missionCompletionCallbacks = s.missionCompletionCallbacks := by
  unfold aiTickStep
  cases hget : alGet s.activeCombats m with
  | none => simp
  | some cd => exact ⟨alGet_alSet_ne _ _ _ _ hne, rfl, rfl, rfl, rfl⟩

theorem completedQ_step (e : SyncEvent) {mid : String} {s : SyncState}
    (h : CompletedQ mid s) :
    CompletedQ mid (step e s).1 ∧
      alGet (step e s).1.finalResults mid = alGet s.finalResults mid := by
  obtain ⟨h1, h2, h3⟩ := h
  cases e with
  | start m now =>
    by_cases hm : m = mid
    · subst hm
      rw [show step (.start m now) s = (startStep m now s, []) from rfl]
      rw [startStep_guarded (startGuard_eq_true_iff.mpr (Or.inl h1))]
      exact ⟨⟨h1, h2, h3⟩, rfl⟩
    · have hne : mid ≠ m := fun hh => hm hh.symm
      obtain ⟨ha, hb, hc, hd, _⟩ := startStep_other hne now s
      exact ⟨⟨hb.mpr h1, ha.symm ▸ h2, fun hcon => h3 (hc.mp hcon)⟩, hd⟩
  | startSyncUpd m st now =>
    by_cases hm : m = mid
    · subst hm
      rw [show step (.startSyncUpd m st now) s = startSyncUpdStep m st now s from rfl]
      rw [startSyncUpdStep_guarded (startGuard_eq_true_iff.mpr (Or.inl h1))]
      exact ⟨⟨h1, h2, h3⟩, rfl⟩
    · have hne : mid ≠ m := fun hh => hm hh.symm
      obtain ⟨ha, hb, hc, hd, _⟩ := startSyncUpdStep_other hne st now s
      exact ⟨⟨hb.mpr h1, ha.symm ▸ h2, fun hcon => h3 (hc.mp hcon)⟩, hd⟩
  | update m st now =>
    by_cases hm : m = mid
    · subst hm
      rw [show step (.update m st now) s = handleUpdate m st now s from rfl]
      rw [handleUpdate_no_session h2]
      exact ⟨⟨h1, h2, h3⟩, rfl⟩
    · have hne : mid ≠ m := fun hh => hm hh.symm
      obtain ⟨ha, hb, hc, hd, _⟩ := handleUpdate_other hne st now s
      exact ⟨⟨hb.mpr h1, ha.symm ▸ h2, fun hcon => h3 (hc.mp hcon)⟩, hd⟩
  | register m cb =>
    exact ⟨⟨h1, h2, h3⟩, rfl⟩
  | forceEnd m now =>
    by_cases hm : m = mid
    · subst hm
      rw [show step (.forceEnd m now) s = forceStep m now s from rfl]
      rw [forceStep_no_session h2]
      exact ⟨⟨h1, h2, h3⟩, rfl⟩
    · have hne : mid ≠ m := fun hh => hm hh.symm
      obtain ⟨ha, hb, hc, hd, _⟩ := forceStep_other hne now s
      exact ⟨⟨hb.mpr h1, ha.symm ▸ h2, fun hcon => h3 (hc.mp hcon)⟩, hd⟩
  | aiTick m st =>
    by_cases hm : m = mid
    · subst hm
      rw [show step (.aiTick m st) s = (aiTickStep m st s, []) from rfl]
      rw [aiTickStep_no_session h2]
      exact ⟨⟨h1, h2, h3⟩, rfl⟩
    · have hne : mid ≠ m := fun hh => hm hh.symm
      obtain ⟨ha, hb, hc, hd, _⟩ := aiTickStep_other hne st s
      exact ⟨⟨hb ▸ h1, ha.symm ▸ h2, hc ▸ h3⟩, hd ▸ rfl⟩

theorem completedQ_run (evs : List SyncEvent) {mid : String} {s : SyncState}
    (h : CompletedQ mid s) :
    CompletedQ mid (run s evs) ∧
      alGet (run s evs).finalResults mid = alGet s.finalResults mid := by
  induction evs generalizing s with
  | nil => exact ⟨h, rfl⟩
  | cons e t ih =>
    obtain ⟨hq, hf⟩ := completedQ_step e h
    obtain ⟨hq2, hf2⟩ := ih hq
    exact ⟨hq2, hf2.trans hf⟩

/-- C3: completion is absorbing. From any reachable state in which a
mission ID is in `completedCombats`, after any further event sequence
the ID is still in `completedCombats`, no session exists for it,
`isCombatActive` is false, a `startSynchronizedCombat` call is a no-op
creating no session, and `getCombatResults` still returns the archived
value unchanged. -/
theorem c3_absorbing_completion (s : SyncState) (mid : String)
    (hs : Reachable s) (hmem : mid ∈ s.completedCombats) :
    ∀ evs : List SyncEvent,
      mid ∈ (run s evs).completedCombats ∧
      alGet (run s evs).activeCombats mid = none ∧
      isCombatActive (run s evs) mid = false ∧
      (∀ now, startStep mid now (run s evs) = run s evs) ∧
      getCombatResults (run s evs) mid = getCombatResults s mid := by
  intro evs
  have hq0 : CompletedQ mid s := by
    obtain ⟨ha, hb⟩ := (syncInv_reachable hs).2.2.2 mid hmem
    exact ⟨hmem, ha, hb⟩
  obtain ⟨⟨hq1, hq2, hq3⟩, hf⟩ := completedQ_run evs hq0
  refine ⟨hq1, hq2, ?_, ?_, hf⟩
  · unfold isCombatActive
    rw [hq2]
    simp [hq3]
  · intro now
    exact startStep_guarded (startGuard_eq_true_iff.mpr (Or.inl hq1))

theorem c3_absorbing_completion_witness :
    "m" ∈ (run initState
      [.start "m" 0, .update "m" ⟨some true, 0, []⟩ 5]).completedCombats ∧
    ("m" ∈ (run (run initState [.start "m" 0, .update "m" ⟨some true, 0, []⟩ 5])
        [.start "m" 7, .register "m" 3]).completedCombats ∧
     alGet (run (run initState [.start "m" 0, .update "m" ⟨some true, 0, []⟩ 5])
        [.start "m" 7, .register "m" 3]).activeCombats "m" = none ∧
     isCombatActive (run (run initState [.start "m" 0, .update "m" ⟨some true, 0, []⟩ 5])
        [.start "m" 7, .register "m" 3]) "m" = false ∧
     (∀ now, startStep "m" now
        (run (run initState [.start "m" 0, .update "m" ⟨some true, 0, []⟩ 5])
          [.start "m" 7, .register "m" 3]) =
        run (run initState [.start "m" 0, .update "m" ⟨some true, 0, []⟩ 5])
          [.start "m" 7, .register "m" 3]) ∧
     getCombatResults (run (run initState [.start "m" 0, .update "m" ⟨some true, 0, []⟩ 5])
        [.start "m" 7, .register "m" 3]) "m" =
       getCombatResults (run initState
        [.start "m" 0, .update "m" ⟨some true, 0, []⟩ 5]) "m") :=
  ⟨by decide,
   c3_absorbing_completion (run initState [.start "m" 0, .update "m" ⟨some true, 0, []⟩ 5])
     "m" ⟨[.start "m" 0, .update "m" ⟨some true, 0, []⟩ 5], rfl⟩ (by decide)
     [.start "m" 7, .register "m" 3]⟩

/-- C4 counterexample: the forced-end transition is not identical to
the natural-defeat transition on two counts. First, with one listener
registered on a live session, `forceCombatEnd` produces an empty
invocation log while a natural defeat terminal event invokes the
listener — no listener notification. Second, when the forced end
occurs at the exact time of the collaborator snapshot's `startTime`,
the `|| Date.now()` fallback in the duration expression archives
`now / 1000` (epoch seconds) instead of the `0` the natural defeat
path carrying the same snapshot archives. -/
theorem c4_counterexample :
    (regList (run initState [.start "m" 0, .register "m" 3]) "m" = [3] ∧
     isCombatActive (run initState [.start "m" 0, .register "m" 3]) "m" = true ∧
     (step (.forceEnd "m" 5) (run initState [.start "m" 0, .register "m" 3])).2 = [] ∧
     (step (.update "m" ⟨some false, 0, []⟩ 5)
        (run initState [.start "m" 0, .register "m" 3])).2 ≠ []) ∧
    (alGet (step (.forceEnd "m" 5)
        (run initState [.start "m" 0, .aiTick "m" ⟨none, 5, []⟩])).1.finalResults "m" =
      some ⟨false, 5 / 1000, []⟩ ∧
     alGet (step (.update "m" ⟨some false, 5, []⟩ 5)
        (run initState [.start "m" 0, .aiTick "m" ⟨none, 5, []⟩])).1.finalResults "m" =
      some ⟨false, 0, []⟩ ∧
     (5 : ℚ) / 1000 ≠ 0) := by
  have hget2 : alGet (run initState
      [.start "m" 0, .aiTick "m" ⟨none, 5, []⟩]).activeCombats "m" =
      some ⟨false, 0, 0, some ⟨none, 5, []⟩⟩ := by decide
  refine ⟨⟨by decide, by decide, by decide, ?_⟩, ?_, ?_, by norm_num⟩
  · intro hcon
    have : ((3 : ℕ), false, ((5 : ℚ) - 0) / 1000) ∈
        (step (.update "m" ⟨some false, 0, []⟩ 5)
          (run initState [.start "m" 0, .register "m" 3])).2 := by
      rw [show (step (.update "m" ⟨some false, 0, []⟩ 5)
          (run initState [.start "m" 0, .register "m" 3])).2 =
        [((3 : ℕ), false, ((5 : ℚ) - 0) / 1000)] from rfl]
      exact List.mem_singleton.mpr rfl
    rw [hcon] at this
    exact List.not_mem_nil _ this
  · rw [show (step (.forceEnd "m" 5)
        (run initState [.start "m" 0, .aiTick "m" ⟨none, 5, []⟩])).1 =
      (forceStep "m" 5 (run initState [.start "m" 0, .aiTick "m" ⟨none, 5, []⟩])).1
      from rfl]
    rw [forceStep_fires hget2 rfl]
    show alGet (alSet _ "m" _) "m" = _
    rw [alGet_alSet_self]
    norm_num [healthsOf]
  · rw [show (step (.update "m" ⟨some false, 5, []⟩ 5)
        (run initState [.start "m" 0, .aiTick "m" ⟨none, 5, []⟩])).1 =
      (handleUpdate "m" ⟨some false, 5, []⟩ 5
        (run initState [.start "m" 0, .aiTick "m" ⟨none, 5, []⟩])).1 from rfl]
    rw [handleUpdate_fires hget2 rfl]
    show alGet (alSet _ "m" _) "m" = _
    rw [alGet_alSet_self]
    norm_num [healthsOf]

/-- C4 (amended): on a live session whose collaborator currently
reports state `st`, provided the forced end does not occur at the
exact time of the snapshot's `startTime` (`now - st.startTime ≠ 0`;
at that instant the source's `|| Date.now()` fallback archives
`now / 1000` instead of 0, diverging from the natural path),
`forceCombatEnd` archives a `FinalResult` with `victory = false` and
the collaborator's current health snapshot, and reaches exactly the
state a natural defeat terminal event carrying `st` would reach —
same archived duration, completion marking, session removal,
listener-list clearing, `completedCombats` insertion and lock
release — but it invokes no listener (empty invocation log), unlike
the natural defeat path. -/
theorem c4_forced_end_equivalence (s : SyncState) (mid : String) (cd : SessionData)
    (st : RealCombatState) (now : ℚ)
    (hget : alGet s.activeCombats mid = some cd)
    (hcomp : cd.isComplete = false)
    (hai : cd.aiState = some st)
    (hne : now - st.startTime ≠ 0) :
    (forceStep mid now s).1 =
      (handleUpdate mid ⟨some false, st.startTime, st.combatants⟩ now s).1 ∧
    (forceStep mid now s).2 = [] := by
  constructor
  · rw [forceStep_fires hget hcomp,
      handleUpdate_fires hget (show (⟨some false, st.startTime, st.combatants⟩ :
        RealCombatState).victory = some false from rfl)]
    simp only [hai, if_neg hne]
  · rw [forceStep_fires hget hcomp]

theorem c4_forced_end_equivalence_witness :
    alGet (run initState [.start "m" 0, .aiTick "m" ⟨none, 1, [⟨"a", 3⟩]⟩]).activeCombats
        "m" = some ⟨false, 0, 0, some ⟨none, 1, [⟨"a", 3⟩]⟩⟩ ∧
    (5 : ℚ) - 1 ≠ 0 ∧
    (forceStep "m" 5 (run initState [.start "m" 0, .aiTick "m" ⟨none, 1, [⟨"a", 3⟩]⟩])).1 =
      (handleUpdate "m" ⟨some false, 1, [⟨"a", 3⟩]⟩ 5
        (run initState [.start "m" 0, .aiTick "m" ⟨none, 1, [⟨"a", 3⟩]⟩])).1 ∧
    (forceStep "m" 5 (run initState [.start "m" 0, .aiTick "m" ⟨none, 1, [⟨"a", 3⟩]⟩])).2 = [] :=
  ⟨by decide, by norm_num,
   (c4_forced_end_equivalence (run initState [.start "m" 0, .aiTick "m" ⟨none, 1, [⟨"a", 3⟩]⟩])
      "m" ⟨false, 0, 0, some ⟨none, 1, [⟨"a", 3⟩]⟩⟩ ⟨none, 1, [⟨"a", 3⟩]⟩ 5
      (by decide) rfl rfl (by norm_num)).1,
   (c4_forced_end_equivalence (run initState [.start "m" 0, .aiTick "m" ⟨none, 1, [⟨"a", 3⟩]⟩])
      "m" ⟨false, 0, 0, some ⟨none, 1, [⟨"a", 3⟩]⟩⟩ ⟨none, 1, [⟨"a", 3⟩]⟩ 5
      (by decide) rfl rfl (by norm_num)).2⟩

/-- C5 counterexample: after a successful `startSynchronizedCombat` the
session object is registered, yet the mission ID is still in the
`combatLocks` set — the source never removes the lock on the start
path, contradicting the claim that the ID is no longer in the StartLock
set when the call returns. -/
theorem c5_counterexample :
    alGet (startStep "m" 0 initState).activeCombats "m" =
      some ⟨false, 0, 0, none⟩ ∧
    "m" ∈ (startStep "m" 0 initState).combatLocks :=
  ⟨by decide, by decide⟩

/-- C5 (amended): on the successful path `startSynchronizedCombat`
registers the session and the mission ID REMAINS in the StartLock set
when the call returns (the lock is released only by terminal-event
processing or a forced end); consequently between lock insertion and
lock release the mission always has both guards — in every reachable
state a locked mission has a registered session — and `isCombatActive`
reports it active. -/
theorem c5_lock_retained :
    (∀ (s : SyncState) (mid : String) (now : ℚ), startGuard mid s = false →
      alGet (startStep mid now s).activeCombats mid = some ⟨false, 0, now, none⟩ ∧
      mid ∈ (startStep mid now s).combatLocks ∧
      isCombatActive (startStep mid now s) mid = true) ∧
    (∀ s, Reachable s → ∀ mid ∈ s.combatLocks,
      ∃ cd, alGet s.activeCombats mid = some cd) := by
  constructor
  · intro s mid now hg
    rw [startStep_fresh hg]
    refine ⟨alGet_alSet_self _ _ _, mem_sInsert.mpr (Or.inr rfl), ?_⟩
    unfold isCombatActive
    rw [show alGet (alSet s.activeCombats mid ⟨false, 0, now, none⟩) mid =
      some ⟨false, 0, now, none⟩ from alGet_alSet_self _ _ _]
    rfl
  · intro s hs mid hmid
    exact (syncInv_reachable hs).2.2.1 mid hmid

theorem c5_lock_retained_witness :
    startGuard "m" initState = false ∧
    alGet (startStep "m" 0 initState).activeCombats "m" = some ⟨false, 0, 0, none⟩ ∧
    "m" ∈ (startStep "m" 0 initState).combatLocks ∧
    isCombatActive (startStep "m" 0 initState) "m" = true ∧
    ("m" ∈ (run initState [.start "m" 0]).combatLocks ∧
     ∃ cd, alGet (run initState [.start "m" 0]).activeCombats "m" = some cd) :=
  ⟨by decide,
   (c5_lock_retained.1 initState "m" 0 (by decide)).1,
   (c5_lock_retained.1 initState "m" 0 (by decide)).2.1,
   (c5_lock_retained.1 initState "m" 0 (by decide)).2.2,
   by decide,
   c5_lock_retained.2 (run initState [.start "m" 0]) ⟨[.start "m" 0], rfl⟩
     "m" (by decide)⟩

theorem live_preserved_step (e : SyncEvent) {mid : String} {s : SyncState}
    (hlive : ∃ cd, alGet s.activeCombats mid = some cd ∧ cd.isComplete = false)
    (hk : ¬killsSession mid e) :
    ∃ cd, alGet (step e s).1.activeCombats mid = some cd ∧
      cd.isComplete = false := by
  obtain ⟨cd, hcd, hcomp⟩ := hlive
  cases e with
  | start m now =>
    by_cases hm : m = mid
    · subst hm
      rw [show (step (.start m now) s).1 = startStep m now s from rfl,
        startStep_guarded (startGuard_eq_true_iff.mpr
          (Or.inr (Or.inr ⟨cd, hcd, hcomp⟩)))]
      exact ⟨cd, hcd, hcomp⟩
    · have hne : mid ≠ m := fun hh => hm hh.symm
      rw [show (step (.start m now) s).1 = startStep m now s from rfl,
        (startStep_other hne now s).1]
      exact ⟨cd, hcd, hcomp⟩
  | startSyncUpd m st now =>
    by_cases hm : m = mid
    · subst hm
      rw [show (step (.startSyncUpd m st now) s).1 = (startSyncUpdStep m st now s).1
          from rfl,
        startSyncUpdStep_guarded (startGuard_eq_true_iff.mpr
          (Or.inr (Or.inr ⟨cd, hcd, hcomp⟩)))]
      exact ⟨cd, hcd, hcomp⟩
    · have hne : mid ≠ m := fun hh => hm hh.symm
      rw [show (step (.startSyncUpd m st now) s).1 = (startSyncUpdStep m st now s).1
          from rfl,
        (startSyncUpdStep_other hne st now s).1]
      exact ⟨cd, hcd, hcomp⟩
  | update m st now =>
    by_cases hm : m = mid
    · subst hm
      have hv : st.victory = none := by
        by_contra hcon
        exact hk ⟨rfl, hcon⟩
      rw [show (step (.update m st now) s).1 = (handleUpdate m st now s).1 from rfl,
        handleUpdate_no_terminal hv]
      exact ⟨cd, hcd, hcomp⟩
    · have hne : mid ≠ m := fun hh => hm hh.symm
      rw [show (step (.update m st now) s).1 = (handleUpdate m st now s).1 from rfl,
        (handleUpdate_other hne st now s).1]
      exact ⟨cd, hcd, hcomp⟩
  | register m cb => exact ⟨cd, hcd, hcomp⟩
  | forceEnd m now =>
    have hne : mid ≠ m := fun hh => hk (by rw [hh]; exact rfl)
    rw [show (step (.forceEnd m now) s).1 = (forceStep m now s).1 from rfl,
      (forceStep_other hne now s).1]
    exact ⟨cd, hcd, hcomp⟩
  | aiTick m st =>
    by_cases hm : m = mid
    · subst hm
      rw [show (step (.aiTick m st) s).1 = aiTickStep m st s from rfl]
      unfold aiTickStep
      rw [hcd]
      exact ⟨{ cd with aiState := some st }, alGet_alSet_self _ _ _, hcomp⟩
    · have hne : mid ≠ m := fun hh => hm hh.symm
      rw [show (step (.aiTick m st) s).1 = aiTickStep m st s from rfl,
        (aiTickStep_other hne st s).1]
      exact ⟨cd, hcd, hcomp⟩

theorem live_preserved_run (evs : List SyncEvent) {mid : String} {s : SyncState}
    (hlive : ∃ cd, alGet s.activeCombats mid = some cd ∧ cd.isComplete = false)
    (hk : ∀ e ∈ evs, ¬killsSession mid e) :
    ∃ cd, alGet (run s evs).activeCombats mid = some cd ∧
      cd.isComplete = false := by
  induction evs generalizing s with
  | nil => exact hlive
  | cons e t ih =>
    exact ih (live_preserved_step e hlive (hk e (List.mem_cons_self _ _)))
      (fun b hb => hk b (List.mem_cons_of_mem _ hb))

/-- C9: when the collaborator delivers its terminal snapshot
synchronously from inside `startCombat` — before the session object is
registered — the update handler finds no session entry and does
nothing: no listener fires, `completedCombats` and `finalResults` are
untouched. The session registered immediately afterwards is live, and
it stays live (and `isCombatActive` stays true) under every later event
sequence that contains no terminal update and no forced end for this
mission. -/
theorem c9_sync_terminal_lost (s : SyncState) (mid : String)
    (st : RealCombatState) (v : Bool) (now : ℚ)
    (hg : startGuard mid s = false)
    (hnone : alGet s.activeCombats mid = none)
    (hv : st.victory = some v) :
    (startSyncUpdStep mid st now s).2 = [] ∧
    (startSyncUpdStep mid st now s).1.completedCombats = s.completedCombats ∧
    (startSyncUpdStep mid st now s).1.finalResults = s.finalResults ∧
    alGet (startSyncUpdStep mid st now s).1.activeCombats mid =
      some ⟨false, 0, now, none⟩ ∧
    ∀ evs : List SyncEvent, (∀ e ∈ evs, ¬killsSession mid e) →
      (∃ cd, alGet (run (startSyncUpdStep mid st now s).1 evs).activeCombats mid =
          some cd ∧ cd.isComplete = false) ∧
      isCombatActive (run (startSyncUpdStep mid st now s).1 evs) mid = true := by
  rw [startSyncUpdStep_no_session hg hnone, startStep_fresh hg]
  refine ⟨rfl, rfl, rfl, alGet_alSet_self _ _ _, ?_⟩
  intro evs hk
  have hlive := @live_preserved_run evs mid
    { s with
        combatLocks := sInsert s.combatLocks mid
        activeCombats := alSet s.activeCombats mid ⟨false, 0, now, none⟩ }
    ⟨⟨false, 0, now, none⟩, alGet_alSet_self _ _ _, rfl⟩ hk
  refine ⟨hlive, ?_⟩
  obtain ⟨cd, hcd, hcomp⟩ := hlive
  unfold isCombatActive
  simp [hcd, hcomp]

theorem c9_sync_terminal_lost_witness :
    startGuard "m" initState = false ∧
    alGet initState.activeCombats "m" = none ∧
    ((∀ e ∈ [SyncEvent.register "m" 7, SyncEvent.start "m" 3],
        ¬killsSession "m" e) ∧
     (startSyncUpdStep "m" ⟨some true, 0, []⟩ 0 initState).2 = [] ∧
     (startSyncUpdStep "m" ⟨some true, 0, []⟩ 0 initState).1.completedCombats =
       initState.completedCombats ∧
     (∃ cd, alGet (run (startSyncUpdStep "m" ⟨some true, 0, []⟩ 0 initState).1
          [SyncEvent.register "m" 7, SyncEvent.start "m" 3]).activeCombats "m" =
            some cd ∧ cd.isComplete = false) ∧
     isCombatActive (run (startSyncUpdStep "m" ⟨some true, 0, []⟩ 0 initState).1
        [SyncEvent.register "m" 7, SyncEvent.start "m" 3]) "m" = true) :=
  ⟨by decide, rfl,
   by simp [killsSession],
   (c9_sync_terminal_lost initState "m" ⟨some true, 0, []⟩ true 0
      (by decide) rfl rfl).1,
   (c9_sync_terminal_lost initState "m" ⟨some true, 0, []⟩ true 0
      (by decide) rfl rfl).2.1,
   ((c9_sync_terminal_lost initState "m" ⟨some true, 0, []⟩ true 0
      (by decide) rfl rfl).2.2.2.2 [SyncEvent.register "m" 7, SyncEvent.start "m" 3]
      (by simp [killsSession])).1,
   ((c9_sync_terminal_lost initState "m" ⟨some true, 0, []⟩ true 0
      (by decide) rfl rfl).2.2.2.2 [SyncEvent.register "m" 7, SyncEvent.start "m" 3]
      (by simp [killsSession])).2⟩

/-- C10: in every reachable (quiescent) synchronizer state every
registered session has `isComplete = false` — a session that completes
is removed within the same atomic step — and therefore
`getActualCombatDuration`, which returns a duration only for a
registered session with `isComplete = true`, returns `none` for every
mission ID. -/
theorem c10_no_complete_sessions (s : SyncState) (hs : Reachable s) :
    (∀ p ∈ s.activeCombats, p.2.isComplete = false) ∧
    ∀ mid, getActualCombatDuration s mid = none := by
  refine ⟨(syncInv_reachable hs).2.1, ?_⟩
  intro mid
  unfold getActualCombatDuration
  cases hget : alGet s.activeCombats mid with
  | none => rfl
  | some cd =>
    have hcomp : cd.isComplete = false :=
      (syncInv_reachable hs).2.1 (mid, cd) (alGet_mem hget)
    simp [hcomp]

theorem c10_no_complete_sessions_witness :
    Reachable (run initState [.start "m" 0, .register "m" 1]) ∧
    (∀ p ∈ (run initState [.start "m" 0, .register "m" 1]).activeCombats,
      p.2.isComplete = false) ∧
    getActualCombatDuration (run initState [.start "m" 0, .register "m" 1]) "m" = none :=
  ⟨⟨[.start "m" 0, .register "m" 1], rfl⟩,
   (c10_no_complete_sessions (run initState [.start "m" 0, .register "m" 1])
      ⟨[.start "m" 0, .register "m" 1], rfl⟩).1,
   (c10_no_complete_sessions (run initState [.start "m" 0, .register "m" 1])
      ⟨[.start "m" 0, .register "m" 1], rfl⟩).2 "m"⟩
